import Mathlib

/-!
Verification of the in-memory virtual filesystem engine in `src/VFS.py`.

The Python engine mutates a single object graph in place and signals failure by
raising exceptions; the mutations performed before a `raise` persist.  We embed
this as pure state passing: every operation takes a `VFSState` and returns the
result (`Except VErr α`) together with the state after the call, which on an
error is exactly the state at the moment the exception was raised.

Modelling conventions, each noted where used:
* Python `dict`s (inode table, node store, directory entries) become
  insertion-ordered association lists with dict assignment/deletion semantics
  (`dinsert`, `derase`, `dget`).
* The byte buffer `File.data` (always produced by `content.encode('utf-8')`,
  with UTF-8 encoding injective on Unicode strings) is modelled by the string
  it encodes; its byte length is `String.utf8ByteSize`.  `File.read` decodes
  with `errors='ignore'`, which on the valid UTF-8 buffers the engine stores
  returns exactly the encoded string, so it is the identity here.
* `time.time()` becomes a logical clock (`clock` field), one tick per call.
* The free-block pool is a Python `set` with arbitrary `pop` order; we model
  it as the list of its elements and `pop` as taking from the front (the spec
  declares the order unspecified, and no claim depends on it).
* Dictionary `KeyError` / `AttributeError` on states the engine never reaches
  (dangling ids, a file where a directory is required as the current
  directory) are mapped to the `VErr.internalError` constructor.
-/

deriving instance DecidableEq for Except

namespace VFS

/-- Errors raised by the engine; each constructor corresponds to one `raise`
site in `src/VFS.py` (the message string is recorded in a comment). -/
inductive VErr where
  /-- `raise Exception("Out of space")`, `_allocate_blocks` line 66. -/
  | outOfSpace
  /-- `raise Exception(f"... is not a directory")`, `_resolve_path` line 84. -/
  | notADirectoryPart (part : String)
  /-- `raise Exception(f"Directory ... not found")`, `_resolve_path` line 86. -/
  | directoryPartNotFound (part : String)
  /-- `raise Exception("Directory exists")`, `mkdir` line 92. -/
  | directoryExists
  /-- `raise Exception("File exists")`, `touch` line 99. -/
  | fileExists
  /-- `raise Exception("Not a directory")`, `cd` line 117. -/
  | notADirectory
  /-- `raise Exception("Directory not found")`, `cd` line 119. -/
  | directoryNotFound
  /-- `raise Exception("File not found")`, `cat` line 123 / `write` line 132. -/
  | fileNotFound
  /-- `raise Exception("Is a directory")`, `cat` line 127 / `write` line 136. -/
  | isADirectory
  /-- `raise Exception("Not found")`, `rm` line 146 / `chmod` line 159. -/
  | notFound
  /-- `raise Exception("Source file not found")`, `cp` line 166 / `mv` line 189. -/
  | sourceFileNotFound
  /-- `raise Exception("Copying directories not supported yet")`, `cp` line 170. -/
  | copyDirUnsupported
  /-- `raise Exception("Destination already exists")`, `cp` line 174 / `mv` line 196. -/
  | destinationExists
  /-- `raise Exception("Moving directories not supported yet")`, `mv` line 193. -/
  | moveDirUnsupported
  /-- `ValueError` from `int(permissions, 8)`, `chmod` line 161. -/
  | invalidOctal
  /-- `KeyError` / `AttributeError` on states the engine cannot reach. -/
  | internalError
deriving DecidableEq

/-- `class Inode` (`src/VFS.py` lines 3-12): metadata record of one object. -/
structure Inode where
  id : Nat
  is_dir : Bool
  permissions : Int
  size : Nat
  blocks : List Nat
  created : Nat
  modified : Nat
  owner : String
deriving DecidableEq

/-- Payload of an inode in the node store `self.files`: `class File` holds a
byte buffer (modelled by the string it UTF-8 encodes), `class Directory`
holds the insertion-ordered mapping child name to inode id. -/
inductive NodeData where
  | file (data : String)
  | dir (entries : List (String × Nat))
deriving DecidableEq

/-- Python `d[k]` lookup on an association-list dictionary. -/
def dget {κ α : Type} [DecidableEq κ] : List (κ × α) → κ → Option α
  | [], _ => none
  | p :: l, k => if p.1 = k then some p.2 else dget l k

/-- Python `d[k] = v`: replace in place if the key is present (keeping its
position), otherwise append at the end (dict insertion order). -/
def dinsert {κ α : Type} [DecidableEq κ] : List (κ × α) → κ → α → List (κ × α)
  | [], k, v => [(k, v)]
  | p :: l, k, v => if p.1 = k then (k, v) :: l else p :: dinsert l k v

/-- Python `del d[k]` (the engine only deletes keys it has just looked up,
so the key is present at every call site). -/
def derase {κ α : Type} [DecidableEq κ] : List (κ × α) → κ → List (κ × α)
  | [], _ => []
  | p :: l, k => if p.1 = k then derase l k else p :: derase l k

/-- The whole mutable engine state of `class VirtualFileSystem`
(`src/VFS.py` lines 40-47), plus the logical clock standing for `time.time()`. -/
structure VFSState where
  total_blocks : Nat
  block_size : Nat
  free_blocks : List Nat
  inodes : List (Nat × Inode)
  files : List (Nat × NodeData)
  next_inode_id : Nat
  current_dir : Nat
  clock : Nat
deriving DecidableEq

/-- `self.files[k]` of the node store. -/
def VFSState.getFiles (st : VFSState) (k : Nat) : Option NodeData := dget st.files k

/-- `self.inodes[k]` of the inode table. -/
def VFSState.getInode (st : VFSState) (k : Nat) : Option Inode := dget st.inodes k

/-- Byte length of the UTF-8 encoding, `len(content.encode('utf-8'))`. -/
def utf8Len (s : String) : Nat := s.utf8ByteSize

/-- `Inode.__init__`: two `time.time()` calls (created, then modified). -/
def mkInode (inode_id : Nat) (is_dir : Bool) (permissions : Int) (clock : Nat) : Inode :=
  { id := inode_id, is_dir := is_dir, permissions := permissions, size := 0,
    blocks := [], created := clock, modified := clock + 1, owner := "user" }

/-- `VirtualFileSystem.__init__` followed by `_create_root`
(`src/VFS.py` lines 40-54): fresh tables, free set `range(total_blocks)`,
root directory at inode id 0, `next_inode_id` left at 1. -/
def initVFS (total_blocks block_size : Nat) : VFSState :=
  { total_blocks := total_blocks, block_size := block_size,
    free_blocks := List.range total_blocks,
    inodes := [(0, mkInode 0 true 493 0)],
    files := [(0, NodeData.dir [])],
    next_inode_id := 1, current_dir := 0, clock := 2 }

/-- `_allocate_inode` (`src/VFS.py` lines 56-61): next id, bump the counter,
register the inode (permissions argument is an `Int` since `int(s, 8)` can be
negative). -/
def allocate_inode (st : VFSState) (is_dir : Bool) (permissions : Int) :
    Inode × VFSState :=
  let inode := mkInode st.next_inode_id is_dir permissions st.clock
  (inode,
    { st with next_inode_id := st.next_inode_id + 1,
              inodes := dinsert st.inodes st.next_inode_id inode,
              clock := st.clock + 2 })

/-- `_allocate_blocks` (`src/VFS.py` lines 63-71): `needed = ceil(size /
block_size)`; raise `Out of space` before removing anything if the free pool
is too small, else pop `needed` blocks (front of the free list here; the set
pop order is arbitrary in the source). -/
def allocate_blocks (st : VFSState) (size : Nat) :
    Except VErr (List Nat) × VFSState :=
  let needed := (size + st.block_size - 1) / st.block_size
  if st.free_blocks.length < needed then (Except.error VErr.outOfSpace, st)
  else (Except.ok (st.free_blocks.take needed),
        { st with free_blocks := st.free_blocks.drop needed })

/-- Helper for `pySplit`: the first argument is the reversed current chunk. -/
def pySplitAux (sep : Char) : List Char → List Char → List String
  | acc, [] => [String.mk acc.reverse]
  | acc, c :: rest =>
    if c = sep then String.mk acc.reverse :: pySplitAux sep [] rest
    else pySplitAux sep (c :: acc) rest

/-- Python `s.split(sep)` for a one-character separator, as used by
`path.split('/')`: every occurrence of the separator ends a chunk, so empty
chunks appear for leading, trailing and doubled separators, and the result is
never the empty list. -/
def pySplit (s : String) (sep : Char) : List String :=
  pySplitAux sep [] s.toList

/-- Directory-entry lookup `name in self.files[d].entries` /
`self.files[d].entries[name]`: plain dictionary lookup. -/
def lookupEntry (entries : List (String × Nat)) (name : String) : Option Nat :=
  dget entries name

/-- The loop of `_resolve_path` over every component except the last
(`src/VFS.py` lines 76-86): `..` teleports to inode 0; any other component is
looked up in the current node's entries, must exist and be a directory. -/
def resolveLoop (st : VFSState) : Nat → List String → Except VErr Nat
  | current, [] => Except.ok current
  | current, part :: rest =>
    if part = ".." then resolveLoop st 0 rest
    else
      match st.getFiles current with
      | some (NodeData.dir entries) =>
        match lookupEntry entries part with
        | some inode_id =>
          match st.getInode inode_id with
          | some ino =>
            if ino.is_dir then resolveLoop st inode_id rest
            else Except.error (VErr.notADirectoryPart part)
          | none => Except.error VErr.internalError
        | none => Except.error (VErr.directoryPartNotFound part)
      | some (NodeData.file _) => Except.error VErr.internalError
      | none => Except.error VErr.internalError

/-- `_resolve_path` (`src/VFS.py` lines 73-88): split on `/`, walk all but the
last component from the current directory, return (parent dir id, leaf name).
`split('/')` always returns a nonempty list, so `parts[-1]` is total. -/
def resolve_path (st : VFSState) (path : String) : Except VErr (Nat × String) :=
  let parts := pySplit path '/'
  match resolveLoop st st.current_dir parts.dropLast with
  | Except.error e => Except.error e
  | Except.ok current => Except.ok (current, parts.getLastD "")

/-- `self.files[dirId].add_entry(name, childId)`: dict assignment on the
directory's entries.  The fallback branch (not a directory / absent) is
unreachable at every call site, which has just checked the node. -/
def addDirEntry (st : VFSState) (dirId : Nat) (name : String) (childId : Nat) :
    VFSState :=
  match st.getFiles dirId with
  | some (NodeData.dir entries) =>
    { st with files := dinsert st.files dirId (NodeData.dir (dinsert entries name childId)) }
  | _ => st

/-- `self.files[dirId].remove_entry(name)` (`Directory.remove_entry`,
`src/VFS.py` lines 35-37): delete the entry if present, no-op otherwise. -/
def remDirEntry (st : VFSState) (dirId : Nat) (name : String) : VFSState :=
  match st.getFiles dirId with
  | some (NodeData.dir entries) =>
    { st with files := dinsert st.files dirId (NodeData.dir (derase entries name)) }
  | _ => st

/-- `mkdir` (`src/VFS.py` lines 90-95). -/
def mkdir (st : VFSState) (name : String) : Except VErr Unit × VFSState :=
  match st.getFiles st.current_dir with
  | some (NodeData.dir entries) =>
    if (lookupEntry entries name).isSome then (Except.error VErr.directoryExists, st)
    else
      let p := allocate_inode st true 493
      let st2 := { p.2 with files := dinsert p.2.files p.1.id (NodeData.dir []) }
      (Except.ok (), addDirEntry st2 st2.current_dir name p.1.id)
  | _ => (Except.error VErr.internalError, st)

/-- `touch` (`src/VFS.py` lines 97-102). -/
def touch (st : VFSState) (name : String) : Except VErr Unit × VFSState :=
  match st.getFiles st.current_dir with
  | some (NodeData.dir entries) =>
    if (lookupEntry entries name).isSome then (Except.error VErr.fileExists, st)
    else
      let p := allocate_inode st false 493
      let st2 := { p.2 with files := dinsert p.2.files p.1.id (NodeData.file "") }
      (Except.ok (), addDirEntry st2 st2.current_dir name p.1.id)
  | _ => (Except.error VErr.internalError, st)

/-- `ls` (`src/VFS.py` lines 104-106): entry names in insertion order. -/
def ls (st : VFSState) : Except VErr (List String) × VFSState :=
  match st.getFiles st.current_dir with
  | some (NodeData.dir entries) => (Except.ok (entries.map Prod.fst), st)
  | _ => (Except.error VErr.internalError, st)

/-- `cd` (`src/VFS.py` lines 108-119): `..` goes to inode 0 (from anywhere),
otherwise the name must be a directory entry of the current directory. -/
def cd (st : VFSState) (path : String) : Except VErr Unit × VFSState :=
  if path = ".." then
    (Except.ok (), if st.current_dir ≠ 0 then { st with current_dir := 0 } else st)
  else
    match st.getFiles st.current_dir with
    | some (NodeData.dir entries) =>
      match lookupEntry entries path with
      | some inode_id =>
        match st.getInode inode_id with
        | some ino =>
          if ino.is_dir then (Except.ok (), { st with current_dir := inode_id })
          else (Except.error VErr.notADirectory, st)
        | none => (Except.error VErr.internalError, st)
      | none => (Except.error VErr.directoryNotFound, st)
    | _ => (Except.error VErr.internalError, st)

/-- `cat` (`src/VFS.py` lines 121-128): returns `File.read()`, the decoded
buffer, which on the engine's buffers is the stored string itself. -/
def cat (st : VFSState) (name : String) : Except VErr String × VFSState :=
  match st.getFiles st.current_dir with
  | some (NodeData.dir entries) =>
    match lookupEntry entries name with
    | some inode_id =>
      match st.getFiles inode_id with
      | some (NodeData.dir _) => (Except.error VErr.isADirectory, st)
      | some (NodeData.file data) => (Except.ok data, st)
      | none => (Except.error VErr.internalError, st)
    | none => (Except.error VErr.fileNotFound, st)
  | _ => (Except.error VErr.internalError, st)

/-- `write` (`src/VFS.py` lines 130-142).  `File.write` runs first: it
replaces the buffer, sets `size = len(data)` and `modified = time.time()`.
Only then is the block shortfall computed and (possibly) allocated, so an
`Out of space` failure keeps the already-mutated buffer, size and mtime.
In the allocating branch `len(blocks) < needed` forces
`size > len(blocks) * block_size`, so the Python argument
`size - len(blocks)*block_size` is positive and `Nat` subtraction is exact. -/
def write (st : VFSState) (name content : String) : Except VErr Unit × VFSState :=
  match st.getFiles st.current_dir with
  | some (NodeData.dir entries) =>
    match lookupEntry entries name with
    | some inode_id =>
      match st.getFiles inode_id with
      | some (NodeData.dir _) => (Except.error VErr.isADirectory, st)
      | some (NodeData.file _) =>
        match st.getInode inode_id with
        | some ino =>
          let size := utf8Len content
          let st1 := { st with
            files := dinsert st.files inode_id (NodeData.file content),
            inodes := dinsert st.inodes inode_id
              { ino with size := size, modified := st.clock },
            clock := st.clock + 1 }
          let needed := (size + st.block_size - 1) / st.block_size
          if ino.blocks.length < needed then
            match allocate_blocks st1 (size - ino.blocks.length * st.block_size) with
            | (Except.error e, st2) => (Except.error e, st2)
            | (Except.ok newBlocks, st2) =>
              let ino2 := { ino with size := size, modified := st.clock,
                                     blocks := ino.blocks ++ newBlocks }
              (Except.ok (), { st2 with inodes := dinsert st2.inodes inode_id ino2 })
          else (Except.ok (), st1)
        | none => (Except.error VErr.internalError, st)
      | none => (Except.error VErr.internalError, st)
    | none => (Except.error VErr.fileNotFound, st)
  | _ => (Except.error VErr.internalError, st)

/-- One `self.free_blocks.add(block)` per owned block (`rm`, lines 148-149);
`set.add` is a no-op on an element already present. -/
def addFree (free : List Nat) : List Nat → List Nat
  | [] => free
  | b :: bs => addFree (if b ∈ free then free else free ++ [b]) bs

/-- `rm` (`src/VFS.py` lines 144-152): return every owned block to the free
pool, delete the inode and its payload, remove the directory entry. -/
def rm (st : VFSState) (name : String) : Except VErr Unit × VFSState :=
  match st.getFiles st.current_dir with
  | some (NodeData.dir entries) =>
    match lookupEntry entries name with
    | some inode_id =>
      match st.getInode inode_id with
      | some ino =>
        let st1 := { st with free_blocks := addFree st.free_blocks ino.blocks,
                             inodes := derase st.inodes inode_id,
                             files := derase st.files inode_id }
        (Except.ok (), remDirEntry st1 st1.current_dir name)
      | none => (Except.error VErr.internalError, st)
    | none => (Except.error VErr.notFound, st)
  | _ => (Except.error VErr.internalError, st)

/-- `pwd` (`src/VFS.py` lines 154-155). -/
def pwd (st : VFSState) : Except VErr String × VFSState :=
  (Except.ok ("/ (inode " ++ toString st.current_dir ++ ")"), st)

/-- The ASCII-range whitespace `int(...)` strips around the numeral, by code
point: exactly the characters 9-13 and 32 (CPython strips further whitespace
only outside ASCII, e.g. U+0085 and U+00A0, via its Unicode-to-ASCII
normalization, which is outside the ASCII fragment modelled here). -/
def isPySpace (c : Char) : Bool :=
  c.toNat = 32 ∨ c.toNat = 9 ∨ c.toNat = 10 ∨ c.toNat = 13 ∨ c.toNat = 11 ∨ c.toNat = 12

/-- Octal digit (code points 48-55, the characters 0-7). -/
def isOctDigit (c : Char) : Bool := 48 ≤ c.toNat ∧ c.toNat ≤ 55

/-- Numeric value of a list of octal digits, most significant first. -/
def octVal (ds : List Char) : Nat :=
  ds.foldl (fun acc c => acc * 8 + (c.toNat - 48)) 0

/-- Digit-run scanner for `int(s, 8)`: `acc` holds the digits read so far in
reverse; `afterUnd` records that the previous character was an underscore, in
which case the next character must be a digit (single underscores may only
separate digits in the CPython numeral grammar, and the run must end in a
digit; code point 95 is the underscore). -/
def octScan : List Char → Bool → List Char → Option (List Char)
  | [], afterUnd, acc => if afterUnd then none else some acc.reverse
  | c :: rest, afterUnd, acc =>
    if c.toNat = 95 then (if afterUnd then none else octScan rest true acc)
    else if isOctDigit c then octScan rest false (c :: acc)
    else none

/-- Digit part of `int(s, 8)`: a nonempty underscore-grouped run of octal
digits, starting with a digit.  Returns the digits with underscores removed. -/
def octChunk : List Char → Option (List Char)
  | [] => none
  | c :: rest => if isOctDigit c then octScan rest false [c] else none

/-- Strip the optional `0o`/`0O` base marker, plus the one underscore CPython
allows right after it. -/
def stripBaseMarker (l : List Char) : List Char :=
  match l with
  | c0 :: c1 :: rest =>
    if c0.toNat = 48 ∧ (c1.toNat = 111 ∨ c1.toNat = 79) then
      match rest with
      | c2 :: rest2 => if c2.toNat = 95 then rest2 else c2 :: rest2
      | [] => []
    else c0 :: c1 :: rest
  | l => l

/-- Optional sign of the numeral: returns the sign and the remaining text. -/
def pySign : List Char → Int × List Char
  | [] => (1, [])
  | c :: rest =>
    if c.toNat = 43 then (1, rest)
    else if c.toNat = 45 then (-1, rest)
    else (1, c :: rest)

/-- CPython `int(s, 8)` (`chmod`, line 161) restricted to ASCII strings, on
which it is exact: optional surrounding whitespace, optional sign, optional
`0o` marker, then an underscore-grouped octal numeral; `none` models the
`ValueError`.  CPython first maps Unicode decimal digits and Unicode
whitespace to their ASCII counterparts, so on non-ASCII strings (e.g.
`"\u0085644"` or Arabic-Indic digits) the real parser accepts where this
model rejects; theorems about the failure path therefore assume ASCII
input. -/
def pyIntBase8 (s : String) : Option Int :=
  let cs := ((s.toList.dropWhile isPySpace).reverse.dropWhile isPySpace).reverse
  let p := pySign cs
  match octChunk (stripBaseMarker p.2) with
  | some ds => some (p.1 * Int.ofNat (octVal ds))
  | none => none

/-- `chmod` (`src/VFS.py` lines 157-161): entry must exist; the assignment
`self.inodes[id].permissions = int(permissions, 8)` evaluates the parse
first, so a `ValueError` leaves everything untouched. -/
def chmod (st : VFSState) (name permissions : String) : Except VErr Unit × VFSState :=
  match st.getFiles st.current_dir with
  | some (NodeData.dir entries) =>
    match lookupEntry entries name with
    | some inode_id =>
      match pyIntBase8 permissions with
      | none => (Except.error VErr.invalidOctal, st)
      | some v =>
        match st.getInode inode_id with
        | some ino =>
          let ino2 := { ino with permissions := v }
          (Except.ok (), { st with inodes := dinsert st.inodes inode_id ino2 })
        | none => (Except.error VErr.internalError, st)
    | none => (Except.error VErr.notFound, st)
  | _ => (Except.error VErr.internalError, st)

/-- `cp` (`src/VFS.py` lines 163-182).  Note the order: the fresh inode is
registered in the inode table (`_allocate_inode`) and its `size` field set
before `_allocate_blocks` may raise `Out of space`, so that failure leaves an
orphan inode in the table; the payload and the directory entry are only added
after the allocation succeeds. -/
def cp (st : VFSState) (src dest : String) : Except VErr Unit × VFSState :=
  match resolve_path st src with
  | Except.error e => (Except.error e, st)
  | Except.ok (src_dir, src_name) =>
    match st.getFiles src_dir with
    | some (NodeData.dir sentries) =>
      match lookupEntry sentries src_name with
      | some src_inode_id =>
        match st.getFiles src_inode_id with
        | some (NodeData.dir _) => (Except.error VErr.copyDirUnsupported, st)
        | some (NodeData.file data) =>
          match resolve_path st dest with
          | Except.error e => (Except.error e, st)
          | Except.ok (dest_dir, dest_name) =>
            match st.getFiles dest_dir with
            | some (NodeData.dir dentries) =>
              if (lookupEntry dentries dest_name).isSome then
                (Except.error VErr.destinationExists, st)
              else
                match st.getInode src_inode_id with
                | some sino =>
                  let p := allocate_inode st false sino.permissions
                  let size := utf8Len data
                  let nino1 := { p.1 with size := size }
                  let st2 := { p.2 with inodes := dinsert p.2.inodes p.1.id nino1 }
                  match allocate_blocks st2 size with
                  | (Except.error e, st3) => (Except.error e, st3)
                  | (Except.ok blocks, st3) =>
                    let nino2 := { p.1 with size := size, blocks := blocks }
                    let st4 := { st3 with
                      inodes := dinsert st3.inodes p.1.id nino2,
                      files := dinsert st3.files p.1.id (NodeData.file data) }
                    (Except.ok (), addDirEntry st4 dest_dir dest_name p.1.id)
                | none => (Except.error VErr.internalError, st)
            | _ => (Except.error VErr.internalError, st)
        | none => (Except.error VErr.internalError, st)
      | none => (Except.error VErr.sourceFileNotFound, st)
    | _ => (Except.error VErr.internalError, st)

/-- `mv` (`src/VFS.py` lines 184-203): resolve both paths, validate, then
either rekey the entry in place (same parent) or run a full `cp` followed by
`remove_entry` on the source (different parents). -/
def mv (st : VFSState) (src dest : String) : Except VErr Unit × VFSState :=
  match resolve_path st src with
  | Except.error e => (Except.error e, st)
  | Except.ok (src_dir, src_name) =>
    match resolve_path st dest with
    | Except.error e => (Except.error e, st)
    | Except.ok (dest_dir, dest_name) =>
      match st.getFiles src_dir with
      | some (NodeData.dir sentries) =>
        match lookupEntry sentries src_name with
        | some src_inode_id =>
          match st.getFiles src_inode_id with
          | some (NodeData.dir _) => (Except.error VErr.moveDirUnsupported, st)
          | some (NodeData.file _) =>
            match st.getFiles dest_dir with
            | some (NodeData.dir dentries) =>
              if (lookupEntry dentries dest_name).isSome then
                (Except.error VErr.destinationExists, st)
              else if src_dir = dest_dir then
                (Except.ok (), { st with files := dinsert st.files src_dir (NodeData.dir (derase (dinsert sentries dest_name src_inode_id) src_name)) })
              else
                match cp st src dest with
                | (Except.error e, st2) => (Except.error e, st2)
                | (Except.ok _, st2) => (Except.ok (), remDirEntry st2 src_dir src_name)
            | _ => (Except.error VErr.internalError, st)
          | none => (Except.error VErr.internalError, st)
        | none => (Except.error VErr.sourceFileNotFound, st)
      | _ => (Except.error VErr.internalError, st)

/-- One engine call with its arguments. -/
inductive Op where
  | mkdir (name : String)
  | touch (name : String)
  | ls
  | cd (path : String)
  | cat (name : String)
  | write (name content : String)
  | cp (src dest : String)
  | mv (src dest : String)
  | rm (name : String)
  | pwd
  | chmod (name perms : String)

/-- State after one engine call (the caller catches the exception, so the
state after a failing call is the partially-mutated one Python leaves). -/
def applyOp (st : VFSState) : Op → VFSState
  | Op.mkdir n => (mkdir st n).2
  | Op.touch n => (touch st n).2
  | Op.ls => (ls st).2
  | Op.cd p => (cd st p).2
  | Op.cat n => (cat st n).2
  | Op.write n c => (write st n c).2
  | Op.cp s d => (cp st s d).2
  | Op.mv s d => (mv st s d).2
  | Op.rm n => (rm st n).2
  | Op.pwd => (pwd st).2
  | Op.chmod n p => (chmod st n p).2

/-- States reachable from a freshly initialized filesystem by engine calls. -/
inductive Reachable (total_blocks block_size : Nat) : VFSState → Prop where
  | init : Reachable total_blocks block_size (initVFS total_blocks block_size)
  | step {st : VFSState} (op : Op) :
      Reachable total_blocks block_size st →
      Reachable total_blocks block_size (applyOp st op)

/-- A plain base-8 numeral in the sense of the specification text: a nonempty
string of the digits 0-7 (no sign, no whitespace, no base marker, no
underscores).  Used to compare the spec wording with `pyIntBase8`, the
parser the code actually calls. -/
def specOctNumeral (s : String) : Bool :=
  !s.toList.isEmpty && s.toList.all isOctDigit

/-- Block-accounting invariant of the engine state: the free pool holds no
duplicates, inode ids are unique and below the id counter, each block list is
duplicate-free and disjoint from the free pool and from every other inode's
blocks, and a block index is in range exactly when it is free or owned. -/
structure BlockInv (st : VFSState) : Prop where
  free_nodup : st.free_blocks.Nodup
  keys_nodup : (st.inodes.map Prod.fst).Nodup
  keys_lt : ∀ p ∈ st.inodes, p.1 < st.next_inode_id
  blocks_nodup : ∀ p ∈ st.inodes, p.2.blocks.Nodup
  blocks_free : ∀ p ∈ st.inodes, ∀ b ∈ p.2.blocks, b ∉ st.free_blocks
  blocks_disj : ∀ p ∈ st.inodes, ∀ q ∈ st.inodes, p.1 ≠ q.1 →
    ∀ b ∈ p.2.blocks, b ∉ q.2.blocks
  cover : ∀ b, b < st.total_blocks ↔
    (b ∈ st.free_blocks ∨ ∃ p ∈ st.inodes, b ∈ p.2.blocks)

/-- Node-store invariant: every node-store key and every inode id stored in a
directory's entries is below the id counter (so the next allocated id is
fresh). -/
structure FilesInv (st : VFSState) : Prop where
  fkeys_lt : ∀ p ∈ st.files, p.1 < st.next_inode_id
  entries_lt : ∀ p ∈ st.files, ∀ entries, p.2 = NodeData.dir entries →
    ∀ q ∈ entries, q.2 < st.next_inode_id

/-! ### Association-list dictionary lemmas -/

theorem lookupEntry_eq (entries : List (String × Nat)) (n : String) :
    lookupEntry entries n = dget entries n := rfl

theorem dget_dinsert_self {κ α : Type} [DecidableEq κ] (l : List (κ × α)) (k : κ) (v : α) :
    dget (dinsert l k v) k = some v := by
  induction l with
  | nil => simp [dinsert, dget]
  | cons p l ih =>
    by_cases h : p.1 = k
    · simp [dinsert, dget, h]
    · simp [dinsert, dget, h, ih]

theorem dget_dinsert_ne {κ α : Type} [DecidableEq κ] (l : List (κ × α)) (k k' : κ) (v : α)
    (h : k' ≠ k) : dget (dinsert l k v) k' = dget l k' := by
  have h' : ¬ k = k' := fun hh => h hh.symm
  induction l with
  | nil => simp [dinsert, dget, h']
  | cons p l ih =>
    by_cases hp : p.1 = k
    · rw [dinsert, if_pos hp, dget, dget, if_neg h',
        if_neg (show ¬ p.1 = k' by rw [hp]; exact h')]
    · rw [dinsert, if_neg hp]
      by_cases hp' : p.1 = k'
      · rw [dget, if_pos hp', dget, if_pos hp']
      · rw [dget, if_neg hp', dget, if_neg hp', ih]

theorem dget_derase_self {κ α : Type} [DecidableEq κ] (l : List (κ × α)) (k : κ) :
    dget (derase l k) k = none := by
  induction l with
  | nil => simp [derase, dget]
  | cons p l ih =>
    by_cases h : p.1 = k
    · rw [derase, if_pos h]
      exact ih
    · rw [derase, if_neg h, dget, if_neg h]
      exact ih

theorem dget_derase_ne {κ α : Type} [DecidableEq κ] (l : List (κ × α)) (k k' : κ)
    (h : k' ≠ k) : dget (derase l k) k' = dget l k' := by
  induction l with
  | nil => simp [derase]
  | cons p l ih =>
    by_cases hp : p.1 = k
    · have hne : ¬ p.1 = k' := fun hh => h (by rw [← hh]; exact hp)
      rw [derase, if_pos hp, ih, dget, if_neg hne]
    · rw [derase, if_neg hp]
      by_cases hp' : p.1 = k'
      · rw [dget, if_pos hp', dget, if_pos hp']
      · rw [dget, if_neg hp', dget, if_neg hp', ih]

theorem mem_of_dget {κ α : Type} [DecidableEq κ] {l : List (κ × α)} {k : κ} {v : α}
    (h : dget l k = some v) : (k, v) ∈ l := by
  induction l with
  | nil => simp [dget] at h
  | cons p l ih =>
    by_cases hp : p.1 = k
    · rw [dget, if_pos hp] at h
      injection h with h2
      have hpq : (k, v) = p := by
        cases p
        simp only [Prod.mk.injEq]
        exact ⟨hp.symm, h2.symm⟩
      exact List.mem_cons.mpr (Or.inl hpq)
    · rw [dget, if_neg hp] at h
      exact List.mem_cons_of_mem _ (ih h)

theorem dget_eq_none_iff {κ α : Type} [DecidableEq κ] (l : List (κ × α)) (k : κ) :
    dget l k = none ↔ ∀ p ∈ l, p.1 ≠ k := by
  induction l with
  | nil => simp [dget]
  | cons p l ih =>
    by_cases hp : p.1 = k
    · simp [dget, hp]
    · simp [dget, hp, ih]

theorem mem_derase_iff {κ α : Type} [DecidableEq κ] (l : List (κ × α)) (k : κ)
    (q : κ × α) : q ∈ derase l k ↔ q ∈ l ∧ q.1 ≠ k := by
  induction l with
  | nil => simp [derase]
  | cons p l ih =>
    by_cases hp : p.1 = k
    · rw [derase]
      rw [if_pos hp, ih]
      constructor
      · exact fun h => ⟨List.mem_cons_of_mem _ h.1, h.2⟩
      · rintro ⟨hq, hne⟩
        rcases List.mem_cons.mp hq with h | h
        · exact absurd (h ▸ hp) hne
        · exact ⟨h, hne⟩
    · rw [derase]
      rw [if_neg hp]
      constructor
      · intro h
        rcases List.mem_cons.mp h with h | h
        · exact ⟨h ▸ List.mem_cons_self _ _, h ▸ hp⟩
        · exact ⟨List.mem_cons_of_mem _ (ih.mp h).1, (ih.mp h).2⟩
      · rintro ⟨hq, hne⟩
        rcases List.mem_cons.mp hq with h | h
        · exact h ▸ List.mem_cons_self _ _
        · exact List.mem_cons_of_mem _ (ih.mpr ⟨h, hne⟩)

theorem mem_dinsert {κ α : Type} [DecidableEq κ] {l : List (κ × α)} {k : κ} {v : α}
    {q : κ × α} (hq : q ∈ dinsert l k v) : q = (k, v) ∨ q ∈ l := by
  induction l with
  | nil => simpa [dinsert] using hq
  | cons p l ih =>
    by_cases hp : p.1 = k
    · rw [dinsert, if_pos hp] at hq
      rcases List.mem_cons.mp hq with h | h
      · exact Or.inl h
      · exact Or.inr (List.mem_cons_of_mem _ h)
    · rw [dinsert, if_neg hp] at hq
      rcases List.mem_cons.mp hq with h | h
      · exact Or.inr (h ▸ List.mem_cons_self _ _)
      · rcases ih h with h2 | h2
        · exact Or.inl h2
        · exact Or.inr (List.mem_cons_of_mem _ h2)

theorem dinsert_of_fresh {κ α : Type} [DecidableEq κ] {l : List (κ × α)} {k : κ} (v : α)
    (h : ∀ p ∈ l, p.1 ≠ k) : dinsert l k v = l ++ [(k, v)] := by
  induction l with
  | nil => simp [dinsert]
  | cons p l ih =>
    rw [dinsert, if_neg (h p (List.mem_cons_self _ _))]
    simp [ih fun q hq => h q (List.mem_cons_of_mem _ hq)]

theorem mem_dinsert_iff {κ α : Type} [DecidableEq κ] {l : List (κ × α)} {k : κ} {v w : α}
    (hnd : (l.map Prod.fst).Nodup) (hk : dget l k = some w) (q : κ × α) :
    q ∈ dinsert l k v ↔ q = (k, v) ∨ (q ∈ l ∧ q.1 ≠ k) := by
  induction l with
  | nil => simp [dget] at hk
  | cons p l ih =>
    simp only [List.map_cons, List.nodup_cons] at hnd
    by_cases hp : p.1 = k
    · rw [dinsert, if_pos hp]
      constructor
      · intro hq
        rcases List.mem_cons.mp hq with h | h
        · exact Or.inl h
        · refine Or.inr ⟨List.mem_cons_of_mem _ h, fun hqk => ?_⟩
          exact hnd.1 (by rw [hp, ← hqk]; exact List.mem_map_of_mem Prod.fst h)
      · rintro (h | ⟨hq, hne⟩)
        · exact h ▸ List.mem_cons_self _ _
        · rcases List.mem_cons.mp hq with h | h
          · exact absurd (h ▸ hp) hne
          · exact List.mem_cons_of_mem _ h
    · rw [dinsert, if_neg hp]
      rw [dget, if_neg hp] at hk
      constructor
      · intro hq
        rcases List.mem_cons.mp hq with h | h
        · exact Or.inr ⟨h ▸ List.mem_cons_self _ _, h ▸ hp⟩
        · rcases (ih hnd.2 hk).mp h with h2 | h2
          · exact Or.inl h2
          · exact Or.inr ⟨List.mem_cons_of_mem _ h2.1, h2.2⟩
      · rintro (h | ⟨hq, hne⟩)
        · exact List.mem_cons_of_mem _ ((ih hnd.2 hk).mpr (Or.inl h))
        · rcases List.mem_cons.mp hq with h | h
          · exact h ▸ List.mem_cons_self _ _
          · exact List.mem_cons_of_mem _ ((ih hnd.2 hk).mpr (Or.inr ⟨h, hne⟩))

theorem keys_dinsert_subset {κ α : Type} [DecidableEq κ] {l : List (κ × α)} {k a : κ}
    {v : α} (h : a ∈ (dinsert l k v).map Prod.fst) : a ∈ l.map Prod.fst ∨ a = k := by
  simp only [List.mem_map] at h
  obtain ⟨q, hq, rfl⟩ := h
  rcases mem_dinsert hq with h | h
  · exact Or.inr (h ▸ rfl)
  · exact Or.inl (List.mem_map_of_mem Prod.fst h)

theorem keys_dinsert_nodup {κ α : Type} [DecidableEq κ] {l : List (κ × α)} {k : κ}
    {v : α} (hnd : (l.map Prod.fst).Nodup) : ((dinsert l k v).map Prod.fst).Nodup := by
  induction l with
  | nil => simp [dinsert]
  | cons p l ih =>
    simp only [List.map_cons, List.nodup_cons] at hnd
    by_cases hp : p.1 = k
    · rw [dinsert, if_pos hp]
      simp only [List.map_cons, List.nodup_cons]
      exact ⟨hp ▸ hnd.1, hnd.2⟩
    · rw [dinsert, if_neg hp]
      simp only [List.map_cons, List.nodup_cons]
      refine ⟨fun hmem => ?_, ih hnd.2⟩
      rcases keys_dinsert_subset hmem with h | h
      · exact hnd.1 h
      · exact hp h

theorem keys_derase_nodup {κ α : Type} [DecidableEq κ] {l : List (κ × α)} {k : κ}
    (hnd : (l.map Prod.fst).Nodup) : ((derase l k).map Prod.fst).Nodup := by
  induction l with
  | nil => simp [derase]
  | cons p l ih =>
    simp only [List.map_cons, List.nodup_cons] at hnd
    by_cases hp : p.1 = k
    · rw [derase, if_pos hp]
      exact ih hnd.2
    · rw [derase, if_neg hp]
      simp only [List.map_cons, List.nodup_cons]
      refine ⟨fun hmem => ?_, ih hnd.2⟩
      simp only [List.mem_map] at hmem
      obtain ⟨q, hq, hfst⟩ := hmem
      exact hnd.1 (hfst ▸ List.mem_map_of_mem Prod.fst ((mem_derase_iff l k q).mp hq).1)

theorem dget_eq_of_mem_nodup {κ α : Type} [DecidableEq κ] {l : List (κ × α)} {q : κ × α}
    (hnd : (l.map Prod.fst).Nodup) (hq : q ∈ l) : dget l q.1 = some q.2 := by
  induction l with
  | nil => simp at hq
  | cons p l ih =>
    simp only [List.map_cons, List.nodup_cons] at hnd
    rcases List.mem_cons.mp hq with h | h
    · simp [dget, h]
    · have hne : ¬ p.1 = q.1 := by
        intro hh
        exact hnd.1 (hh ▸ List.mem_map_of_mem Prod.fst h)
      rw [dget, if_neg hne]
      exact ih hnd.2 h

theorem dinsert_dinsert {κ α : Type} [DecidableEq κ] (l : List (κ × α)) (k : κ) (v v' : α) :
    dinsert (dinsert l k v) k v' = dinsert l k v' := by
  induction l with
  | nil => simp [dinsert]
  | cons p l ih =>
    by_cases hp : p.1 = k
    · rw [dinsert, if_pos hp, dinsert, dinsert, if_pos rfl, if_pos hp]
    · rw [dinsert, if_neg hp, dinsert, dinsert, if_neg hp, if_neg hp, ih]

/-! ### Small arithmetic facts about the block computations -/

theorem ceil_zero_bytes (b : Nat) : (0 + b - 1) / b = 0 := by
  cases b with
  | zero => rfl
  | succ n =>
    rw [Nat.zero_add, Nat.succ_sub_one]
    exact Nat.div_eq_of_lt (Nat.lt_succ_self n)

/-- The shortfall formula of `write` agrees with the missing-block count:
when `k` blocks are owned and `ceil(s / b)` exceeds `k`, allocating
`ceil((s - k*b) / b)` blocks allocates exactly `ceil(s / b) - k`. -/
theorem ceil_shortfall (s k b : Nat) (hb : 0 < b) (hlt : k < (s + b - 1) / b) :
    (s - k * b + b - 1) / b = (s + b - 1) / b - k := by
  have hcomm : b * k = k * b := Nat.mul_comm b k
  have hkb : k * b < s := by
    by_contra hc
    push_neg at hc
    have h1 : (s + b - 1) / b ≤ (k * b + b - 1) / b := Nat.div_le_div_right (by omega)
    have h2 : k * b + b - 1 = (b - 1) + b * k := by omega
    rw [h2, Nat.add_mul_div_left _ _ hb] at h1
    have h3 : (b - 1) / b = 0 := Nat.div_eq_of_lt (by omega)
    omega
  have h4 : s + b - 1 = (s - k * b + b - 1) + b * k := by omega
  have h5 : ((s - k * b + b - 1) + b * k) / b = (s - k * b + b - 1) / b + k :=
    Nat.add_mul_div_left _ _ hb
  rw [h4, h5, Nat.add_sub_cancel]

/-- Characterization of a successful `write`: the buffer is replaced, the
inode gets the new size and mtime and its block list is extended by the
allocated blocks, which are taken from the front of the free pool (none when
no allocation was needed). -/
theorem write_ok (st st' : VFSState) (name content : String)
    (entries : List (String × Nat)) (inode_id : Nat) (data : String) (ino : Inode)
    (hcur : st.getFiles st.current_dir = some (NodeData.dir entries))
    (hname : dget entries name = some inode_id)
    (hfd : st.getFiles inode_id = some (NodeData.file data))
    (hino : st.getInode inode_id = some ino)
    (hw : write st name content = (Except.ok (), st')) :
    ∃ newBlocks : List Nat,
      st' = { st with
        files := dinsert st.files inode_id (NodeData.file content),
        inodes := dinsert st.inodes inode_id
          { ino with size := utf8Len content, modified := st.clock,
                     blocks := ino.blocks ++ newBlocks },
        free_blocks := st.free_blocks.drop newBlocks.length,
        clock := st.clock + 1 }
      ∧ newBlocks = st.free_blocks.take newBlocks.length
      ∧ newBlocks.length =
          (if ino.blocks.length < (utf8Len content + st.block_size - 1) / st.block_size
            then (utf8Len content - ino.blocks.length * st.block_size + st.block_size - 1)
                  / st.block_size
            else 0) := by
  simp only [write, hcur, lookupEntry_eq, hname, hfd, hino] at hw
  by_cases hc : ino.blocks.length < (utf8Len content + st.block_size - 1) / st.block_size
  · rw [if_pos hc] at hw
    simp only [allocate_blocks] at hw
    set m := (utf8Len content - ino.blocks.length * st.block_size + st.block_size - 1)
              / st.block_size with hm
    by_cases hfree : st.free_blocks.length < m
    · rw [if_pos hfree] at hw
      simp at hw
    · rw [if_neg hfree] at hw
      have hlen : (st.free_blocks.take m).length = m := by
        rw [List.length_take]
        omega
      refine ⟨st.free_blocks.take m, ?_, ?_, ?_⟩
      · have h2 := congrArg Prod.snd hw
        simp only at h2
        rw [← h2]
        rw [dinsert_dinsert, hlen]
      · rw [hlen]
      · rw [hlen, if_pos hc]
  · rw [if_neg hc] at hw
    refine ⟨[], ?_, rfl, ?_⟩
    · have h2 := congrArg Prod.snd hw
      simp only at h2
      rw [← h2]
      simp
    · simp [hc]

/-! ### Claims -/

/-- Claim C7: `cd ".."` always succeeds and always sets the current-directory
pointer to the root inode (id 0), regardless of the state (hence never to the
immediate parent when that parent is not the root); and in path resolution
every non-final `..` component resets the walk to inode 0, ignoring actual
ancestry. -/
theorem claim_C7 (st : VFSState) (cur : Nat) (rest : List String) :
    (cd st "..").1 = Except.ok ()
    ∧ ((cd st "..").2).current_dir = 0
    ∧ resolveLoop st cur (".." :: rest) = resolveLoop st 0 rest := by
  refine ⟨?_, ?_, ?_⟩
  · simp [cd]
  · by_cases h : st.current_dir = 0
    · simp [cd, h]
    · simp [cd, h]
  · simp [resolveLoop]

/-- Claim C1 is violated by the code (code_bug exhibit).  On a filesystem with
one block of four bytes: after `touch a; write a "xx"` the disk is full; the
call `write a "xxxxx"` then fails with `Out of space` but has already replaced
the byte buffer (`"xx"` to `"xxxxx"`), the size (2 to 5) and the modified
time, because `File.write` runs before `_allocate_blocks`; likewise, after
filling the disk with `write a "xxxx"`, the failing `cp a b` leaves a fresh
orphan inode (id 2) in the inode table because `_allocate_inode` runs before
`_allocate_blocks`. -/
theorem claim_C1 :
    (write (write (touch (initVFS 1 4) "a").2 "a" "xx").2 "a" "xxxxx").1
        = Except.error VErr.outOfSpace
    ∧ dget ((write (touch (initVFS 1 4) "a").2 "a" "xx").2).files 1
        = some (NodeData.file "xx")
    ∧ dget ((write (write (touch (initVFS 1 4) "a").2 "a" "xx").2 "a" "xxxxx").2).files 1
        = some (NodeData.file "xxxxx")
    ∧ (dget ((write (touch (initVFS 1 4) "a").2 "a" "xx").2).inodes 1).map Inode.size
        = some 2
    ∧ (dget ((write (write (touch (initVFS 1 4) "a").2 "a" "xx").2 "a" "xxxxx").2).inodes 1).map Inode.size
        = some 5
    ∧ (dget ((write (touch (initVFS 1 4) "a").2 "a" "xx").2).inodes 1).map Inode.modified
        = some 4
    ∧ (dget ((write (write (touch (initVFS 1 4) "a").2 "a" "xx").2 "a" "xxxxx").2).inodes 1).map Inode.modified
        = some 5
    ∧ (cp (write (touch (initVFS 1 4) "a").2 "a" "xxxx").2 "a" "b").1
        = Except.error VErr.outOfSpace
    ∧ dget ((write (touch (initVFS 1 4) "a").2 "a" "xxxx").2).inodes 2 = none
    ∧ (dget ((cp (write (touch (initVFS 1 4) "a").2 "a" "xxxx").2 "a" "b").2).inodes 2).isSome
        = true := by
  decide

/-- Claim C3 counterexample: after `touch a; write a "xyz"; write a ""` (10
blocks of 4 bytes) the file's inode has `size = 0` but still owns block 0 —
`write` never releases blocks, so `size == 0` does not imply an empty block
list, contradicting the claim. -/
theorem claim_C3_cex :
    (write (write (touch (initVFS 10 4) "a").2 "a" "xyz").2 "a" "").1 = Except.ok ()
    ∧ (dget ((write (write (touch (initVFS 10 4) "a").2 "a" "xyz").2 "a" "").2).inodes 1).map Inode.size
        = some 0
    ∧ (dget ((write (write (touch (initVFS 10 4) "a").2 "a" "xyz").2 "a" "").2).inodes 1).map Inode.blocks
        = some [0]
    ∧ (dget ((write (write (touch (initVFS 10 4) "a").2 "a" "xyz").2 "a" "").2).inodes 1).map Inode.blocks
        ≠ some [] := by
  decide

/-- Claim C3, amended: a successful `write(name, "")` sets the file's size
to 0 but leaves its block list (and the free pool) exactly as before — blocks
are never released by `write`, so `size == 0` does not imply an empty block
list for a file that previously owned blocks. -/
theorem claim_C3 (st st' : VFSState) (name : String) (entries : List (String × Nat))
    (inode_id : Nat) (ino : Inode)
    (hcur : st.getFiles st.current_dir = some (NodeData.dir entries))
    (hname : dget entries name = some inode_id)
    (hino : st.getInode inode_id = some ino)
    (hw : write st name "" = (Except.ok (), st')) :
    ∃ ino', dget st'.inodes inode_id = some ino'
      ∧ ino'.blocks = ino.blocks
      ∧ ino'.size = 0
      ∧ st'.free_blocks = st.free_blocks := by
  have h0 : utf8Len "" = 0 := rfl
  rcases hfd : st.getFiles inode_id with _ | nd
  · simp only [write, hcur, lookupEntry_eq, hname, hfd] at hw
    simp at hw
  · rcases nd with data | es
    · simp only [write, hcur, lookupEntry_eq, hname, hfd, hino, h0,
        ceil_zero_bytes, Nat.not_lt_zero, if_false] at hw
      have hst : st' = { st with
          files := dinsert st.files inode_id (NodeData.file ""),
          inodes := dinsert st.inodes inode_id
            { ino with size := 0, modified := st.clock },
          clock := st.clock + 1 } := by
        have h2 := congrArg Prod.snd hw
        simpa using h2.symm
      refine ⟨{ ino with size := 0, modified := st.clock }, ?_, rfl, rfl, ?_⟩
      · rw [hst]
        exact dget_dinsert_self _ _ _
      · rw [hst]
    · simp only [write, hcur, lookupEntry_eq, hname, hfd] at hw
      simp at hw

/-- Claim C4: a successful `write(name, content)` followed immediately by
`cat(name)` returns exactly `content` (contents are modelled as the Unicode
strings the byte buffers encode, i.e. exactly the losslessly UTF-8
encodable/decodable contents of the claim). -/
theorem claim_C4 (st st' : VFSState) (name content : String)
    (entries : List (String × Nat)) (inode_id : Nat) (data : String) (ino : Inode)
    (hcur : st.getFiles st.current_dir = some (NodeData.dir entries))
    (hname : dget entries name = some inode_id)
    (hfd : st.getFiles inode_id = some (NodeData.file data))
    (hino : st.getInode inode_id = some ino)
    (hw : write st name content = (Except.ok (), st')) :
    cat st' name = (Except.ok content, st') := by
  have hne : st.current_dir ≠ inode_id := by
    intro h
    rw [h, hfd] at hcur
    simp at hcur
  obtain ⟨nb, hst, -, -⟩ :=
    write_ok st st' name content entries inode_id data ino hcur hname hfd hino hw
  have hcur' : dget st.files st.current_dir = some (NodeData.dir entries) := hcur
  subst hst
  simp only [cat, VFSState.getFiles,
    dget_dinsert_ne st.files inode_id st.current_dir (NodeData.file content) hne,
    hcur', lookupEntry_eq, hname, dget_dinsert_self]

/-- Witness for `claim_C4`: write `"hello"` into a fresh file, read it back. -/
theorem claim_C4_witness :
    cat (write (touch (initVFS 10 4) "w").2 "w" "hello").2 "w"
      = (Except.ok "hello", (write (touch (initVFS 10 4) "w").2 "w" "hello").2) :=
  claim_C4 (touch (initVFS 10 4) "w").2 (write (touch (initVFS 10 4) "w").2 "w" "hello").2
    "w" "hello" [("w", 1)] 1 ""
    { id := 1, is_dir := false, permissions := 493, size := 0, blocks := [],
      created := 2, modified := 3, owner := "user" }
    (by decide) (by decide) (by decide) (by decide) (by decide)

/-- Claim C5: when a successful `write` has to allocate (new needed block
count exceeds the owned count), the shortfall formula
`ceil((new_size - owned*block_size)/block_size)` equals
`ceil(new_size/block_size) - owned`, and the file's block list afterwards has
length exactly `ceil(new_size/block_size)` — for any prior state, including
ones whose size shrank and grew. -/
theorem claim_C5 (st st' : VFSState) (name content : String)
    (entries : List (String × Nat)) (inode_id : Nat) (data : String) (ino : Inode)
    (hbs : 0 < st.block_size)
    (hcur : st.getFiles st.current_dir = some (NodeData.dir entries))
    (hname : dget entries name = some inode_id)
    (hfd : st.getFiles inode_id = some (NodeData.file data))
    (hino : st.getInode inode_id = some ino)
    (halloc : ino.blocks.length < (utf8Len content + st.block_size - 1) / st.block_size)
    (hw : write st name content = (Except.ok (), st')) :
    (utf8Len content - ino.blocks.length * st.block_size + st.block_size - 1) / st.block_size
        = (utf8Len content + st.block_size - 1) / st.block_size - ino.blocks.length
    ∧ ∃ ino', dget st'.inodes inode_id = some ino'
        ∧ ino'.blocks.length = (utf8Len content + st.block_size - 1) / st.block_size := by
  have hid := ceil_shortfall (utf8Len content) ino.blocks.length st.block_size hbs halloc
  refine ⟨hid, ?_⟩
  obtain ⟨nb, hst, -, hlen⟩ :=
    write_ok st st' name content entries inode_id data ino hcur hname hfd hino hw
  rw [if_pos halloc] at hlen
  subst hst
  refine ⟨_, dget_dinsert_self _ _ _, ?_⟩
  simp only [List.length_append]
  rw [hlen, hid]
  exact Nat.add_sub_cancel' (le_of_lt halloc)

/-- Witness for `claim_C5`: writing five bytes into an empty file with
block size 4 allocates exactly two blocks. -/
theorem claim_C5_witness :
    ((utf8Len "xxxxx" - 0 * 4 + 4 - 1) / 4 = (utf8Len "xxxxx" + 4 - 1) / 4 - 0)
    ∧ ∃ ino', dget ((write (touch (initVFS 10 4) "v").2 "v" "xxxxx").2).inodes 1 = some ino'
        ∧ ino'.blocks.length = (utf8Len "xxxxx" + 4 - 1) / 4 :=
  claim_C5 (touch (initVFS 10 4) "v").2 (write (touch (initVFS 10 4) "v").2 "v" "xxxxx").2
    "v" "xxxxx" [("v", 1)] 1 ""
    { id := 1, is_dir := false, permissions := 493, size := 0, blocks := [],
      created := 2, modified := 3, owner := "user" }
    (by decide) (by decide) (by decide) (by decide) (by decide) (by decide) (by decide)

/-- Witness for `claim_C3`: the concrete scenario of `claim_C3_cex`. -/
theorem claim_C3_witness :
    ∃ ino', dget ((write (write (touch (initVFS 10 4) "b").2 "b" "xyz").2 "b" "").2).inodes 1
        = some ino'
      ∧ ino'.blocks = [0]
      ∧ ino'.size = 0
      ∧ ((write (write (touch (initVFS 10 4) "b").2 "b" "xyz").2 "b" "").2).free_blocks
        = ((write (touch (initVFS 10 4) "b").2 "b" "xyz").2).free_blocks := by
  exact claim_C3 _ _ "b" [("b", 1)] 1
    { id := 1, is_dir := false, permissions := 493, size := 3, blocks := [0],
      created := 2, modified := 4, owner := "user" }
    (by decide) (by decide) (by decide) (by decide)

/-! ### The octal parser on plain numerals -/

theorem isOctDigit_range {c : Char} (h : isOctDigit c = true) :
    48 ≤ c.toNat ∧ c.toNat ≤ 55 := by
  simpa [isOctDigit] using h

theorem isPySpace_of_digit {c : Char} (h : isOctDigit c = true) : isPySpace c = false := by
  have h2 := isOctDigit_range h
  simp [isPySpace]
  omega

theorem dropWhile_space_digits (l : List Char) (h : ∀ c ∈ l, isOctDigit c = true) :
    l.dropWhile isPySpace = l := by
  cases l with
  | nil => rfl
  | cons c l =>
    simp [List.dropWhile_cons, isPySpace_of_digit (h c (List.mem_cons_self _ _))]

theorem pySign_digits (l : List Char) (h : ∀ c ∈ l, isOctDigit c = true) :
    pySign l = (1, l) := by
  cases l with
  | nil => rfl
  | cons c l =>
    have h2 := isOctDigit_range (h c (List.mem_cons_self _ _))
    rw [pySign, if_neg (by omega), if_neg (by omega)]

theorem stripBaseMarker_digits (l : List Char) (h : ∀ c ∈ l, isOctDigit c = true) :
    stripBaseMarker l = l := by
  match l with
  | [] => rfl
  | [c] => rfl
  | c0 :: c1 :: rest =>
    have h2 := isOctDigit_range (h c1 (List.mem_cons_of_mem _ (List.mem_cons_self _ _)))
    have hcond : ¬(c0.toNat = 48 ∧ (c1.toNat = 111 ∨ c1.toNat = 79)) := by omega
    simp [stripBaseMarker, hcond]

theorem octScan_digits (l : List Char) (h : ∀ c ∈ l, isOctDigit c = true) :
    ∀ acc, octScan l false acc = some (acc.reverse ++ l) := by
  induction l with
  | nil => intro acc; simp [octScan]
  | cons c l ih =>
    intro acc
    have hc := h c (List.mem_cons_self _ _)
    have h2 := isOctDigit_range hc
    have h95 : ¬ c.toNat = 95 := by omega
    rw [octScan, if_neg h95, if_pos hc,
      ih (fun d hd => h d (List.mem_cons_of_mem _ hd)) (c :: acc)]
    simp

theorem octChunk_digits (l : List Char) (h : ∀ c ∈ l, isOctDigit c = true)
    (hne : l ≠ []) : octChunk l = some l := by
  match l with
  | [] => exact absurd rfl hne
  | c :: rest =>
    rw [octChunk, if_pos (h c (List.mem_cons_self _ _)),
      octScan_digits rest (fun d hd => h d (List.mem_cons_of_mem _ hd)) [c]]
    rfl

/-- On a plain octal numeral, CPython `int(s, 8)` returns exactly the base-8
value of the digits. -/
theorem pyIntBase8_of_numeral (s : String) (h : specOctNumeral s = true) :
    pyIntBase8 s = some (Int.ofNat (octVal s.toList)) := by
  have hne : s.toList ≠ [] := by
    simp only [specOctNumeral, Bool.and_eq_true, Bool.not_eq_true'] at h
    simpa [List.isEmpty_iff] using h.1
  have hdig : ∀ c ∈ s.toList, isOctDigit c = true := by
    simp only [specOctNumeral, Bool.and_eq_true, List.all_eq_true] at h
    exact fun c hc => h.2 c hc
  have hrev : ∀ c ∈ s.toList.reverse, isOctDigit c = true := by
    intro c hc
    exact hdig c (List.mem_reverse.mp hc)
  rw [pyIntBase8]
  rw [dropWhile_space_digits s.toList hdig, dropWhile_space_digits s.toList.reverse hrev,
    List.reverse_reverse, pySign_digits s.toList hdig]
  rw [stripBaseMarker_digits s.toList hdig, octChunk_digits s.toList hdig hne]
  simp

/-- Claim C9 counterexample: `"+644"` is not a base-8 numeral (it starts with
a sign), yet `chmod a "+644"` does not raise — `int(s, 8)` accepts an
optional sign — and sets the permissions to 420 (octal 644). -/
theorem claim_C9_cex :
    specOctNumeral "+644" = false
    ∧ (chmod (touch (initVFS 10 100) "a").2 "a" "+644").1 = Except.ok ()
    ∧ (dget ((chmod (touch (initVFS 10 100) "a").2 "a" "+644").2).inodes 1).map Inode.permissions
        = some 420 := by
  decide

/-- Claim C9, amended: for an existing entry, `chmod` with a plain base-8
numeral sets the inode's permission bits to its base-8 value (and mutates
nothing else); `chmod` with an ASCII string rejected by Python's base-8
`int` parsing (which also tolerates surrounding whitespace, a sign and a
`0o` marker) raises the parse failure and leaves the state completely
unchanged.  The failure direction is restricted to ASCII strings because
CPython additionally normalizes Unicode decimal digits and Unicode
whitespace to ASCII before parsing, accepting some non-ASCII strings. -/
theorem claim_C9 (st : VFSState) (name s : String) (entries : List (String × Nat))
    (inode_id : Nat) (ino : Inode)
    (hcur : st.getFiles st.current_dir = some (NodeData.dir entries))
    (hname : dget entries name = some inode_id)
    (hino : st.getInode inode_id = some ino) :
    (specOctNumeral s = true →
      chmod st name s = (Except.ok (), { st with inodes := dinsert st.inodes inode_id ({ ino with permissions := Int.ofNat (octVal s.toList) }) }))
    ∧ (s.toList.all (fun c => c.toNat < 128) = true →
      pyIntBase8 s = none →
      chmod st name s = (Except.error VErr.invalidOctal, st)) := by
  constructor
  · intro h
    simp only [chmod, hcur, lookupEntry_eq, hname, pyIntBase8_of_numeral s h, hino]
  · intro _ h
    simp only [chmod, hcur, lookupEntry_eq, hname, h]

/-- Witness for `claim_C9`: `chmod c "644"` sets permissions to octal 644;
`chmod c "9"` raises and leaves the state unchanged. -/
theorem claim_C9_witness :
    chmod (touch (initVFS 10 100) "c").2 "c" "644"
      = (Except.ok (), { (touch (initVFS 10 100) "c").2 with
          inodes := dinsert ((touch (initVFS 10 100) "c").2).inodes 1
            ({ id := 1, is_dir := false, permissions := Int.ofNat (octVal "644".toList),
               size := 0, blocks := [], created := 2, modified := 3, owner := "user" }) })
    ∧ chmod (touch (initVFS 10 100) "c").2 "c" "9"
      = (Except.error VErr.invalidOctal, (touch (initVFS 10 100) "c").2) := by
  constructor
  · exact (claim_C9 (touch (initVFS 10 100) "c").2 "c" "644" [("c", 1)] 1
      { id := 1, is_dir := false, permissions := 493, size := 0, blocks := [],
        created := 2, modified := 3, owner := "user" }
      (by decide) (by decide) (by decide)).1 (by decide)
  · exact (claim_C9 (touch (initVFS 10 100) "c").2 "c" "9" [("c", 1)] 1
      { id := 1, is_dir := false, permissions := 493, size := 0, blocks := [],
        created := 2, modified := 3, owner := "user" }
      (by decide) (by decide) (by decide)).2 (by decide) (by decide)

/-- Claim C10 counterexample: the empty component really is looked up as an
ordinary entry name, so after `mkdir ""; cd ""; touch a; cd ..` the
absolute-looking path `/a` resolves through the empty-named directory and
`cp /a b` succeeds and mutates the state — resolution does not always fail,
and absolute paths can be accepted. -/
theorem claim_C10_cex :
    (pySplit "/a" '/').dropLast = [""]
    ∧ (cp (cd (touch (cd (mkdir (initVFS 10 4) "").2 "").2 "a").2 "..").2 "/a" "b").1
        = Except.ok ()
    ∧ (cp (cd (touch (cd (mkdir (initVFS 10 4) "").2 "").2 "a").2 "..").2 "/a" "b").2
        ≠ (cd (touch (cd (mkdir (initVFS 10 4) "").2 "").2 "a").2 "..").2 := by
  decide

/-- Claim C10, amended: an empty path component is looked up as an ordinary
entry name, so whenever the directory reached at an empty non-final component
has no empty-string entry (in particular, in any state where no such entry
was ever created), resolution fails with the directory-not-found error for
`""`; a `cp` or `mv` whose source path fails to resolve, and likewise a `cp`
(with an otherwise valid source file) or an `mv` whose destination path fails
to resolve, returns that error with the state completely unmutated; hence a
path with a leading `/` in either position is rejected whenever the current
directory has no empty-name entry. -/
theorem claim_C10 :
    (∀ (st : VFSState) (cur : Nat) (rest : List String) (entries : List (String × Nat)),
      st.getFiles cur = some (NodeData.dir entries) →
      dget entries "" = none →
      resolveLoop st cur ("" :: rest) = Except.error (VErr.directoryPartNotFound ""))
    ∧ (∀ (st : VFSState) (src dest : String) (e : VErr),
      resolve_path st src = Except.error e →
      cp st src dest = (Except.error e, st) ∧ mv st src dest = (Except.error e, st))
    ∧ (∀ (st : VFSState) (src : String) (rest : List String)
        (entries : List (String × Nat)),
      (pySplit src '/').dropLast = "" :: rest →
      st.getFiles st.current_dir = some (NodeData.dir entries) →
      dget entries "" = none →
      resolve_path st src = Except.error (VErr.directoryPartNotFound ""))
    ∧ (∀ (st : VFSState) (src dest : String) (sd : Nat) (sn : String)
        (sentries : List (String × Nat)) (sid : Nat) (data : String) (e : VErr),
      resolve_path st src = Except.ok (sd, sn) →
      st.getFiles sd = some (NodeData.dir sentries) →
      dget sentries sn = some sid →
      st.getFiles sid = some (NodeData.file data) →
      resolve_path st dest = Except.error e →
      cp st src dest = (Except.error e, st))
    ∧ (∀ (st : VFSState) (src dest : String) (sd : Nat) (sn : String) (e : VErr),
      resolve_path st src = Except.ok (sd, sn) →
      resolve_path st dest = Except.error e →
      mv st src dest = (Except.error e, st)) := by
  have hloop : ∀ (st : VFSState) (cur : Nat) (rest : List String)
      (entries : List (String × Nat)),
      st.getFiles cur = some (NodeData.dir entries) →
      dget entries "" = none →
      resolveLoop st cur ("" :: rest) = Except.error (VErr.directoryPartNotFound "") := by
    intro st cur rest entries hcur hemp
    rw [resolveLoop, if_neg (by decide), hcur]
    simp only [lookupEntry_eq, hemp]
  refine ⟨hloop, ?_, ?_, ?_, ?_⟩
  · intro st src dest e h
    constructor
    · simp only [cp, h]
    · simp only [mv, h]
  · intro st src rest entries hsplit hcur hemp
    rw [resolve_path]
    rw [hsplit, hloop st st.current_dir rest entries hcur hemp]
  · intro st src dest sd sn sentries sid data e hs hsd hsn hfd hd
    simp only [cp, hs, hsd, lookupEntry_eq, hsn, hfd, hd]
  · intro st src dest sd sn e hs hd
    simp only [mv, hs, hd]

/-- Witness for `claim_C10`: on a fresh filesystem, `/a` has the empty first
component, resolution fails with directory-not-found, and `cp`/`mv` with that
source fail leaving the state unchanged; after `touch a`, `cp a /b` and
`mv a /b` (empty component in the destination) also fail with that error,
mutating nothing. -/
theorem claim_C10_witness :
    resolveLoop (initVFS 10 4) 0 [""] = Except.error (VErr.directoryPartNotFound "")
    ∧ cp (initVFS 10 4) "/a" "b"
        = (Except.error (VErr.directoryPartNotFound ""), initVFS 10 4)
    ∧ mv (initVFS 10 4) "/a" "b"
        = (Except.error (VErr.directoryPartNotFound ""), initVFS 10 4)
    ∧ resolve_path (initVFS 10 4) "/a" = Except.error (VErr.directoryPartNotFound "")
    ∧ cp (touch (initVFS 10 4) "a").2 "a" "/b"
        = (Except.error (VErr.directoryPartNotFound ""), (touch (initVFS 10 4) "a").2)
    ∧ mv (touch (initVFS 10 4) "a").2 "a" "/b"
        = (Except.error (VErr.directoryPartNotFound ""), (touch (initVFS 10 4) "a").2) := by
  refine ⟨?_, ?_, ?_, ?_, ?_, ?_⟩
  · exact claim_C10.1 (initVFS 10 4) 0 [] [] (by decide) (by decide)
  · exact (claim_C10.2.1 (initVFS 10 4) "/a" "b" (VErr.directoryPartNotFound "")
      (by decide)).1
  · exact (claim_C10.2.1 (initVFS 10 4) "/a" "b" (VErr.directoryPartNotFound "")
      (by decide)).2
  · exact claim_C10.2.2.1 (initVFS 10 4) "/a" [] [] (by decide) (by decide) (by decide)
  · exact claim_C10.2.2.2.1 (touch (initVFS 10 4) "a").2 "a" "/b" 0 "a" [("a", 1)] 1 ""
      (VErr.directoryPartNotFound "") (by decide) (by decide) (by decide) (by decide)
      (by decide)
  · exact claim_C10.2.2.2.2 (touch (initVFS 10 4) "a").2 "a" "/b" 0 "a"
      (VErr.directoryPartNotFound "") (by decide) (by decide)

/-! ### Block-invariant toolkit -/

theorem mem_key_unique {κ α : Type} [DecidableEq κ] {l : List (κ × α)} {k : κ} {a b : α}
    (hnd : (l.map Prod.fst).Nodup) (h1 : (k, a) ∈ l) (h2 : (k, b) ∈ l) : a = b := by
  have e1 := dget_eq_of_mem_nodup hnd h1
  have e2 := dget_eq_of_mem_nodup hnd h2
  simp only at e1 e2
  rw [e1] at e2
  exact Option.some.inj e2

theorem mem_addFree (free bs : List Nat) (b : Nat) :
    b ∈ addFree free bs ↔ b ∈ free ∨ b ∈ bs := by
  induction bs generalizing free with
  | nil => simp [addFree]
  | cons c bs ih =>
    rw [addFree]
    by_cases hc : c ∈ free
    · rw [if_pos hc, ih]
      constructor
      · rintro (h | h)
        · exact Or.inl h
        · exact Or.inr (List.mem_cons_of_mem _ h)
      · rintro (h | h)
        · exact Or.inl h
        · rcases List.mem_cons.mp h with h | h
          · exact Or.inl (h ▸ hc)
          · exact Or.inr h
    · rw [if_neg hc, ih]
      simp only [List.mem_append, List.mem_cons, List.mem_singleton,
        List.not_mem_nil, or_false]
      tauto

theorem addFree_nodup (free bs : List Nat) (h : free.Nodup) : (addFree free bs).Nodup := by
  induction bs generalizing free with
  | nil => exact h
  | cons c bs ih =>
    rw [addFree]
    by_cases hc : c ∈ free
    · rw [if_pos hc]
      exact ih _ h
    · rw [if_neg hc]
      refine ih _ ?_
      rw [List.nodup_append]
      refine ⟨h, List.nodup_singleton c, ?_⟩
      intro a ha hac
      rw [List.mem_singleton] at hac
      exact hc (hac ▸ ha)

theorem take_drop_disjoint {l : List Nat} (h : l.Nodup) (n : Nat) :
    ∀ b ∈ l.take n, b ∉ l.drop n := by
  intro b hb hb2
  have hd := List.disjoint_take_drop h (Nat.le_refl n)
  exact hd hb hb2

theorem mem_free_split (l : List Nat) (n : Nat) (b : Nat) :
    b ∈ l ↔ b ∈ l.take n ∨ b ∈ l.drop n := by
  conv_lhs => rw [← List.take_append_drop n l]
  exact List.mem_append

theorem blockInv_ext (st st' : VFSState)
    (hf : st'.free_blocks = st.free_blocks) (hi : st'.inodes = st.inodes)
    (hn : st'.next_inode_id = st.next_inode_id) (ht : st'.total_blocks = st.total_blocks)
    (h : BlockInv st) : BlockInv st' := by
  constructor
  · rw [hf]; exact h.free_nodup
  · rw [hi]; exact h.keys_nodup
  · rw [hi, hn]; exact h.keys_lt
  · rw [hi]; exact h.blocks_nodup
  · rw [hi, hf]; exact h.blocks_free
  · rw [hi]; exact h.blocks_disj
  · rw [ht, hf, hi]; exact h.cover

theorem blockInv_fresh (st st' : VFSState) (ino : Inode)
    (hf : st'.free_blocks = st.free_blocks)
    (hi : st'.inodes = dinsert st.inodes st.next_inode_id ino)
    (hn : st'.next_inode_id = st.next_inode_id + 1)
    (ht : st'.total_blocks = st.total_blocks)
    (hb : ino.blocks = [])
    (h : BlockInv st) : BlockInv st' := by
  have hfresh : ∀ p ∈ st.inodes, p.1 ≠ st.next_inode_id :=
    fun p hp => Nat.ne_of_lt (h.keys_lt p hp)
  rw [dinsert_of_fresh ino hfresh] at hi
  have hmem : ∀ q, q ∈ st'.inodes ↔ q ∈ st.inodes ∨ q = (st.next_inode_id, ino) := by
    intro q
    rw [hi]
    simp [List.mem_append]
  constructor
  · rw [hf]; exact h.free_nodup
  · rw [hi, List.map_append, List.nodup_append]
    refine ⟨h.keys_nodup, List.nodup_singleton _, ?_⟩
    intro a ha hb2
    simp only [List.map_cons, List.map_nil, List.mem_singleton] at hb2
    subst hb2
    simp only [List.mem_map] at ha
    obtain ⟨p, hp, hpa⟩ := ha
    exact hfresh p hp hpa
  · intro p hp
    rw [hn]
    rcases (hmem p).mp hp with h2 | h2
    · exact Nat.lt_succ_of_lt (h.keys_lt p h2)
    · rw [h2]
      exact Nat.lt_succ_self _
  · intro p hp
    rcases (hmem p).mp hp with h2 | h2
    · exact h.blocks_nodup p h2
    · rw [h2]
      simp [hb]
  · intro p hp b hbp
    rw [hf]
    rcases (hmem p).mp hp with h2 | h2
    · exact h.blocks_free p h2 b hbp
    · rw [h2] at hbp
      simp [hb] at hbp
  · intro p hp q hq hne b hbp
    rcases (hmem p).mp hp with h2 | h2
    · rcases (hmem q).mp hq with h3 | h3
      · exact h.blocks_disj p h2 q h3 hne b hbp
      · rw [h3]
        simp [hb]
    · rw [h2] at hbp
      simp [hb] at hbp
  · intro b
    rw [ht, hf, h.cover b]
    constructor
    · rintro (h2 | ⟨p, hp, hbp⟩)
      · exact Or.inl h2
      · exact Or.inr ⟨p, (hmem p).mpr (Or.inl hp), hbp⟩
    · rintro (h2 | ⟨p, hp, hbp⟩)
      · exact Or.inl h2
      · rcases (hmem p).mp hp with h3 | h3
        · exact Or.inr ⟨p, h3, hbp⟩
        · rw [h3] at hbp
          simp [hb] at hbp

theorem blockInv_update (st st' : VFSState) (k : Nat) (ino ino' : Inode)
    (hget : dget st.inodes k = some ino)
    (hf : st'.free_blocks = st.free_blocks)
    (hi : st'.inodes = dinsert st.inodes k ino')
    (hn : st'.next_inode_id = st.next_inode_id)
    (ht : st'.total_blocks = st.total_blocks)
    (hb : ino'.blocks = ino.blocks)
    (h : BlockInv st) : BlockInv st' := by
  have hko : (k, ino) ∈ st.inodes := mem_of_dget hget
  have hmem : ∀ q, q ∈ st'.inodes ↔ q = (k, ino') ∨ (q ∈ st.inodes ∧ q.1 ≠ k) := by
    intro q
    rw [hi]
    exact mem_dinsert_iff h.keys_nodup hget q
  constructor
  · rw [hf]; exact h.free_nodup
  · rw [hi]; exact keys_dinsert_nodup h.keys_nodup
  · intro p hp
    rw [hn]
    rcases (hmem p).mp hp with h2 | h2
    · rw [h2]
      exact h.keys_lt (k, ino) hko
    · exact h.keys_lt p h2.1
  · intro p hp
    rcases (hmem p).mp hp with h2 | h2
    · rw [h2]
      simpa [hb] using h.blocks_nodup _ hko
    · exact h.blocks_nodup p h2.1
  · intro p hp b hbp
    rw [hf]
    rcases (hmem p).mp hp with h2 | h2
    · rw [h2] at hbp
      simp only [hb] at hbp
      exact h.blocks_free _ hko b hbp
    · exact h.blocks_free p h2.1 b hbp
  · intro p hp q hq hne b hbp
    rcases (hmem p).mp hp with h2 | h2 <;> rcases (hmem q).mp hq with h3 | h3
    · rw [h2, h3] at hne
      exact absurd rfl hne
    · rw [h2] at hbp
      simp only [hb] at hbp
      exact h.blocks_disj (k, ino) hko q h3.1 (fun hh => h3.2 hh.symm) b hbp
    · rw [h3]
      simp only [hb]
      exact h.blocks_disj p h2.1 (k, ino) hko h2.2 b hbp
    · exact h.blocks_disj p h2.1 q h3.1 hne b hbp
  · intro b
    rw [ht, hf, h.cover b]
    constructor
    · rintro (h2 | ⟨p, hp, hbp⟩)
      · exact Or.inl h2
      · by_cases hpk : p.1 = k
        · have : p.2 = ino := by
            have hp2 : (k, p.2) ∈ st.inodes := by
              have : p = (k, p.2) := by
                cases p
                simp_all
              exact this ▸ hp
            exact mem_key_unique h.keys_nodup hp2 hko
          refine Or.inr ⟨(k, ino'), (hmem _).mpr (Or.inl rfl), ?_⟩
          rw [hb, ← this]
          exact hbp
        · exact Or.inr ⟨p, (hmem p).mpr (Or.inr ⟨hp, hpk⟩), hbp⟩
    · rintro (h2 | ⟨p, hp, hbp⟩)
      · exact Or.inl h2
      · rcases (hmem p).mp hp with h3 | h3
        · rw [h3] at hbp
          simp only [hb] at hbp
          exact Or.inr ⟨(k, ino), hko, hbp⟩
        · exact Or.inr ⟨p, h3.1, hbp⟩

theorem blockInv_alloc (st st' : VFSState) (k n : Nat) (ino ino' : Inode)
    (hget : dget st.inodes k = some ino)
    (hf : st'.free_blocks = st.free_blocks.drop n)
    (hi : st'.inodes = dinsert st.inodes k ino')
    (hn : st'.next_inode_id = st.next_inode_id)
    (ht : st'.total_blocks = st.total_blocks)
    (hb : ino'.blocks = ino.blocks ++ st.free_blocks.take n)
    (h : BlockInv st) : BlockInv st' := by
  have hko : (k, ino) ∈ st.inodes := mem_of_dget hget
  have hmem : ∀ q, q ∈ st'.inodes ↔ q = (k, ino') ∨ (q ∈ st.inodes ∧ q.1 ≠ k) := by
    intro q
    rw [hi]
    exact mem_dinsert_iff h.keys_nodup hget q
  have htd : ∀ b ∈ st.free_blocks.take n, b ∉ st.free_blocks.drop n :=
    take_drop_disjoint h.free_nodup n
  constructor
  · rw [hf]
    exact List.Nodup.sublist (List.drop_sublist n _) h.free_nodup
  · rw [hi]; exact keys_dinsert_nodup h.keys_nodup
  · intro p hp
    rw [hn]
    rcases (hmem p).mp hp with h2 | h2
    · rw [h2]
      exact h.keys_lt (k, ino) hko
    · exact h.keys_lt p h2.1
  · intro p hp
    rcases (hmem p).mp hp with h2 | h2
    · rw [h2]
      simp only [hb]
      rw [List.nodup_append]
      refine ⟨h.blocks_nodup _ hko, List.Nodup.sublist (List.take_sublist n _) h.free_nodup, ?_⟩
      intro b hb1 hb2
      exact h.blocks_free _ hko b hb1 (List.take_subset n _ hb2)
    · exact h.blocks_nodup p h2.1
  · intro p hp b hbp
    rw [hf]
    rcases (hmem p).mp hp with h2 | h2
    · rw [h2] at hbp
      simp only [hb, List.mem_append] at hbp
      rcases hbp with h3 | h3
      · intro hd
        exact h.blocks_free _ hko b h3 (List.drop_subset n _ hd)
      · exact htd b h3
    · intro hd
      exact h.blocks_free p h2.1 b hbp (List.drop_subset n _ hd)
  · intro p hp q hq hne b hbp
    rcases (hmem p).mp hp with h2 | h2 <;> rcases (hmem q).mp hq with h3 | h3
    · rw [h2, h3] at hne
      exact absurd rfl hne
    · rw [h2] at hbp
      simp only [hb, List.mem_append] at hbp
      rcases hbp with h4 | h4
      · exact h.blocks_disj (k, ino) hko q h3.1 (fun hh => h3.2 hh.symm) b h4
      · intro hbq
        exact h.blocks_free q h3.1 b hbq (List.take_subset n _ h4)
    · rw [h3]
      simp only [hb, List.mem_append]
      rintro (h4 | h4)
      · exact h.blocks_disj p h2.1 (k, ino) hko h2.2 b hbp h4
      · exact h.blocks_free p h2.1 b hbp (List.take_subset n _ h4)
    · exact h.blocks_disj p h2.1 q h3.1 hne b hbp
  · intro b
    rw [ht, hf, h.cover b, mem_free_split st.free_blocks n b]
    constructor
    · rintro ((h2 | h2) | ⟨p, hp, hbp⟩)
      · refine Or.inr ⟨(k, ino'), (hmem _).mpr (Or.inl rfl), ?_⟩
        simp only [hb, List.mem_append]
        exact Or.inr h2
      · exact Or.inl h2
      · by_cases hpk : p.1 = k
        · have hpi : p.2 = ino := by
            have hp2 : (k, p.2) ∈ st.inodes := by
              have hpe : p = (k, p.2) := by
                cases p
                simp_all
              exact hpe ▸ hp
            exact mem_key_unique h.keys_nodup hp2 hko
          refine Or.inr ⟨(k, ino'), (hmem _).mpr (Or.inl rfl), ?_⟩
          simp only [hb, List.mem_append]
          exact Or.inl (hpi ▸ hbp)
        · exact Or.inr ⟨p, (hmem p).mpr (Or.inr ⟨hp, hpk⟩), hbp⟩
    · rintro (h2 | ⟨p, hp, hbp⟩)
      · exact Or.inl (Or.inr h2)
      · rcases (hmem p).mp hp with h3 | h3
        · rw [h3] at hbp
          simp only [hb, List.mem_append] at hbp
          rcases hbp with h4 | h4
          · exact Or.inr ⟨(k, ino), hko, h4⟩
          · exact Or.inl (Or.inl h4)
        · exact Or.inr ⟨p, h3.1, hbp⟩

theorem blockInv_remove (st st' : VFSState) (k : Nat) (ino : Inode)
    (hget : dget st.inodes k = some ino)
    (hf : st'.free_blocks = addFree st.free_blocks ino.blocks)
    (hi : st'.inodes = derase st.inodes k)
    (hn : st'.next_inode_id = st.next_inode_id)
    (ht : st'.total_blocks = st.total_blocks)
    (h : BlockInv st) : BlockInv st' := by
  have hko : (k, ino) ∈ st.inodes := mem_of_dget hget
  have hmem : ∀ q, q ∈ st'.inodes ↔ q ∈ st.inodes ∧ q.1 ≠ k := by
    intro q
    rw [hi]
    exact mem_derase_iff st.inodes k q
  constructor
  · rw [hf]
    exact addFree_nodup _ _ h.free_nodup
  · rw [hi]; exact keys_derase_nodup h.keys_nodup
  · intro p hp
    rw [hn]
    exact h.keys_lt p ((hmem p).mp hp).1
  · intro p hp
    exact h.blocks_nodup p ((hmem p).mp hp).1
  · intro p hp b hbp
    obtain ⟨hpo, hpk⟩ := (hmem p).mp hp
    rw [hf, mem_addFree]
    rintro (h2 | h2)
    · exact h.blocks_free p hpo b hbp h2
    · exact h.blocks_disj p hpo (k, ino) hko hpk b hbp h2
  · intro p hp q hq hne b hbp
    exact h.blocks_disj p ((hmem p).mp hp).1 q ((hmem q).mp hq).1 hne b hbp
  · intro b
    rw [ht, hf, h.cover b, mem_addFree]
    constructor
    · rintro (h2 | ⟨p, hp, hbp⟩)
      · exact Or.inl (Or.inl h2)
      · by_cases hpk : p.1 = k
        · have hpi : p.2 = ino := by
            have hp2 : (k, p.2) ∈ st.inodes := by
              have hpe : p = (k, p.2) := by
                cases p
                simp_all
              exact hpe ▸ hp
            exact mem_key_unique h.keys_nodup hp2 hko
          exact Or.inl (Or.inr (hpi ▸ hbp))
        · exact Or.inr ⟨p, (hmem p).mpr ⟨hp, hpk⟩, hbp⟩
    · rintro ((h2 | h2) | ⟨p, hp, hbp⟩)
      · exact Or.inl h2
      · exact Or.inr ⟨(k, ino), hko, h2⟩
      · exact Or.inr ⟨p, ((hmem p).mp hp).1, hbp⟩

/-- Double update at the same key, in the shape produced by `write`/`cp`. -/
theorem blockInv_alloc2 (st st' : VFSState) (k n : Nat) (ino ino1 ino2 : Inode)
    (hget : dget st.inodes k = some ino)
    (hf : st'.free_blocks = st.free_blocks.drop n)
    (hi : st'.inodes = dinsert (dinsert st.inodes k ino1) k ino2)
    (hn : st'.next_inode_id = st.next_inode_id)
    (ht : st'.total_blocks = st.total_blocks)
    (hb : ino2.blocks = ino.blocks ++ st.free_blocks.take n)
    (h : BlockInv st) : BlockInv st' :=
  blockInv_alloc st st' k n ino ino2 hget hf (by rw [hi, dinsert_dinsert]) hn ht hb h

/-- `add_entry` touches only the node store. -/
theorem addDirEntry_same (st : VFSState) (d : Nat) (n : String) (c : Nat) :
    (addDirEntry st d n c).free_blocks = st.free_blocks
    ∧ (addDirEntry st d n c).inodes = st.inodes
    ∧ (addDirEntry st d n c).next_inode_id = st.next_inode_id
    ∧ (addDirEntry st d n c).total_blocks = st.total_blocks := by
  rcases hd : st.getFiles d with _ | nd
  · simp [addDirEntry, hd]
  · rcases nd with d2 | e2 <;> simp [addDirEntry, hd]

/-- `remove_entry` touches only the node store. -/
theorem remDirEntry_same (st : VFSState) (d : Nat) (n : String) :
    (remDirEntry st d n).free_blocks = st.free_blocks
    ∧ (remDirEntry st d n).inodes = st.inodes
    ∧ (remDirEntry st d n).next_inode_id = st.next_inode_id
    ∧ (remDirEntry st d n).total_blocks = st.total_blocks := by
  rcases hd : st.getFiles d with _ | nd
  · simp [remDirEntry, hd]
  · rcases nd with d2 | e2 <;> simp [remDirEntry, hd]

/-- `ls` never mutates. -/
theorem ls_snd (st : VFSState) : (ls st).2 = st := by
  rcases hd : st.getFiles st.current_dir with _ | nd
  · simp [ls, hd]
  · rcases nd with d2 | e2 <;> simp [ls, hd]

/-- `pwd` never mutates. -/
theorem pwd_snd (st : VFSState) : (pwd st).2 = st := rfl

/-- `cat` never mutates. -/
theorem cat_snd (st : VFSState) (n : String) : (cat st n).2 = st := by
  rcases hd : st.getFiles st.current_dir with _ | nd
  · simp [cat, hd]
  · rcases nd with d2 | entries
    · simp [cat, hd]
    · rcases he : lookupEntry entries n with _ | id
      · simp [cat, hd, he]
      · rcases hf2 : st.getFiles id with _ | nd2
        · simp [cat, hd, he, hf2]
        · rcases nd2 with d3 | e3 <;> simp [cat, hd, he, hf2]

theorem blockInv_mkdir (st : VFSState) (n : String) (h : BlockInv st) :
    BlockInv (mkdir st n).2 := by
  rcases hcur : st.getFiles st.current_dir with _ | nd
  · simpa only [mkdir, hcur] using h
  · rcases nd with data | entries
    · simpa only [mkdir, hcur] using h
    · by_cases he : (lookupEntry entries n).isSome
      · simpa only [mkdir, hcur, if_pos he] using h
      · simp only [mkdir, hcur, if_neg he]
        refine blockInv_ext _ _ (addDirEntry_same _ _ _ _).1 (addDirEntry_same _ _ _ _).2.1
          (addDirEntry_same _ _ _ _).2.2.1 (addDirEntry_same _ _ _ _).2.2.2 ?_
        exact blockInv_fresh st _ (mkInode st.next_inode_id true 493 st.clock)
          rfl rfl rfl rfl rfl h

theorem blockInv_touch (st : VFSState) (n : String) (h : BlockInv st) :
    BlockInv (touch st n).2 := by
  rcases hcur : st.getFiles st.current_dir with _ | nd
  · simpa only [touch, hcur] using h
  · rcases nd with data | entries
    · simpa only [touch, hcur] using h
    · by_cases he : (lookupEntry entries n).isSome
      · simpa only [touch, hcur, if_pos he] using h
      · simp only [touch, hcur, if_neg he]
        refine blockInv_ext _ _ (addDirEntry_same _ _ _ _).1 (addDirEntry_same _ _ _ _).2.1
          (addDirEntry_same _ _ _ _).2.2.1 (addDirEntry_same _ _ _ _).2.2.2 ?_
        exact blockInv_fresh st _ (mkInode st.next_inode_id false 493 st.clock)
          rfl rfl rfl rfl rfl h

theorem blockInv_cd (st : VFSState) (p : String) (h : BlockInv st) :
    BlockInv (cd st p).2 := by
  by_cases hp : p = ".."
  · subst hp
    have hs : (cd st "..").2 = if st.current_dir ≠ 0 then { st with current_dir := 0 } else st := by
      simp [cd]
    rw [hs]
    by_cases h0 : st.current_dir ≠ 0
    · rw [if_pos h0]
      exact blockInv_ext st _ rfl rfl rfl rfl h
    · rw [if_neg h0]
      exact h
  · rcases hcur : st.getFiles st.current_dir with _ | nd
    · simpa only [cd, if_neg hp, hcur] using h
    · rcases nd with data | entries
      · simpa only [cd, if_neg hp, hcur] using h
      · rcases he : lookupEntry entries p with _ | id
        · simpa only [cd, if_neg hp, hcur, he] using h
        · rcases hio : st.getInode id with _ | ino
          · simpa only [cd, if_neg hp, hcur, he, hio] using h
          · by_cases hdir : ino.is_dir = true
            · simp only [cd, if_neg hp, hcur, he, hio, if_pos hdir]
              exact blockInv_ext st _ rfl rfl rfl rfl h
            · simpa only [cd, if_neg hp, hcur, he, hio, if_neg hdir] using h

theorem blockInv_chmod (st : VFSState) (n s : String) (h : BlockInv st) :
    BlockInv (chmod st n s).2 := by
  rcases hcur : st.getFiles st.current_dir with _ | nd
  · simpa only [chmod, hcur] using h
  · rcases nd with data | entries
    · simpa only [chmod, hcur] using h
    · rcases he : lookupEntry entries n with _ | id
      · simpa only [chmod, hcur, he] using h
      · rcases hv : pyIntBase8 s with _ | v
        · simpa only [chmod, hcur, he, hv] using h
        · rcases hio : st.getInode id with _ | ino
          · simpa only [chmod, hcur, he, hv, hio] using h
          · simp only [chmod, hcur, he, hv, hio]
            exact blockInv_update st _ id ino { ino with permissions := v }
              hio rfl rfl rfl rfl rfl h

theorem blockInv_write (st : VFSState) (n c : String) (h : BlockInv st) :
    BlockInv (write st n c).2 := by
  rcases hcur : st.getFiles st.current_dir with _ | nd
  · simpa only [write, hcur] using h
  · rcases nd with data | entries
    · simpa only [write, hcur] using h
    · rcases he : lookupEntry entries n with _ | id
      · simpa only [write, hcur, he] using h
      · rcases hfd : st.getFiles id with _ | nd2
        · simpa only [write, hcur, he, hfd] using h
        · rcases nd2 with data2 | entries2
          · rcases hio : st.getInode id with _ | ino
            · simpa only [write, hcur, he, hfd, hio] using h
            · simp only [write, hcur, he, hfd, hio]
              by_cases hneed :
                  ino.blocks.length < (utf8Len c + st.block_size - 1) / st.block_size
              · rw [if_pos hneed]
                simp only [allocate_blocks]
                by_cases hfree : st.free_blocks.length <
                    (utf8Len c - ino.blocks.length * st.block_size + st.block_size - 1)
                      / st.block_size
                · rw [if_pos hfree]
                  exact blockInv_update st _ id ino _ hio rfl rfl rfl rfl rfl h
                · rw [if_neg hfree]
                  exact blockInv_alloc2 st _ id
                    ((utf8Len c - ino.blocks.length * st.block_size + st.block_size - 1)
                      / st.block_size) ino _ _ hio rfl rfl rfl rfl rfl h
              · rw [if_neg hneed]
                exact blockInv_update st _ id ino _ hio rfl rfl rfl rfl rfl h
          · simpa only [write, hcur, he, hfd] using h

theorem blockInv_rm (st : VFSState) (n : String) (h : BlockInv st) :
    BlockInv (rm st n).2 := by
  rcases hcur : st.getFiles st.current_dir with _ | nd
  · simpa only [rm, hcur] using h
  · rcases nd with data | entries
    · simpa only [rm, hcur] using h
    · rcases he : lookupEntry entries n with _ | id
      · simpa only [rm, hcur, he] using h
      · rcases hio : st.getInode id with _ | ino
        · simpa only [rm, hcur, he, hio] using h
        · simp only [rm, hcur, he, hio]
          refine blockInv_ext _ _ (remDirEntry_same _ _ _).1 (remDirEntry_same _ _ _).2.1
            (remDirEntry_same _ _ _).2.2.1 (remDirEntry_same _ _ _).2.2.2 ?_
          exact blockInv_remove st _ id ino hio rfl rfl rfl rfl h

theorem blockInv_cp (st : VFSState) (src dest : String) (h : BlockInv st) :
    BlockInv (cp st src dest).2 := by
  rcases hrs : resolve_path st src with e | sp
  · simpa only [cp, hrs] using h
  · rcases sp with ⟨sd, sn⟩
    rcases hsd : st.getFiles sd with _ | nd
    · simpa only [cp, hrs, hsd] using h
    · rcases nd with data | sentries
      · simpa only [cp, hrs, hsd] using h
      · rcases he : lookupEntry sentries sn with _ | id
        · simpa only [cp, hrs, hsd, he] using h
        · rcases hfd : st.getFiles id with _ | nd2
          · simpa only [cp, hrs, hsd, he, hfd] using h
          · rcases nd2 with data | entries2
            · rcases hrd : resolve_path st dest with e | dp
              · simpa only [cp, hrs, hsd, he, hfd, hrd] using h
              · rcases dp with ⟨dd, dn⟩
                rcases hdd : st.getFiles dd with _ | nd3
                · simpa only [cp, hrs, hsd, he, hfd, hrd, hdd] using h
                · rcases nd3 with data3 | dentries
                  · simpa only [cp, hrs, hsd, he, hfd, hrd, hdd] using h
                  · by_cases hex : (lookupEntry dentries dn).isSome
                    · simpa only [cp, hrs, hsd, he, hfd, hrd, hdd, if_pos hex] using h
                    · rcases hsi : st.getInode id with _ | sino
                      · simpa only [cp, hrs, hsd, he, hfd, hrd, hdd, if_neg hex, hsi]
                          using h
                      · simp only [cp, hrs, hsd, he, hfd, hrd, hdd, if_neg hex, hsi]
                        simp only [allocate_blocks, allocate_inode, mkInode]
                        have hfr : BlockInv (allocate_inode st false sino.permissions).2 :=
                          blockInv_fresh st _
                            (mkInode st.next_inode_id false sino.permissions st.clock)
                            rfl rfl rfl rfl rfl h
                        by_cases hfree : st.free_blocks.length <
                            (utf8Len data + st.block_size - 1) / st.block_size
                        · rw [if_pos hfree]
                          exact blockInv_update (allocate_inode st false sino.permissions).2
                            _ st.next_inode_id
                            (mkInode st.next_inode_id false sino.permissions st.clock) _
                            (dget_dinsert_self _ _ _) rfl rfl rfl rfl rfl hfr
                        · rw [if_neg hfree]
                          refine blockInv_ext _ _ (addDirEntry_same _ _ _ _).1
                            (addDirEntry_same _ _ _ _).2.1 (addDirEntry_same _ _ _ _).2.2.1
                            (addDirEntry_same _ _ _ _).2.2.2 ?_
                          exact blockInv_alloc2 (allocate_inode st false sino.permissions).2
                            _ st.next_inode_id
                            ((utf8Len data + st.block_size - 1) / st.block_size)
                            (mkInode st.next_inode_id false sino.permissions st.clock) _ _
                            (dget_dinsert_self _ _ _) rfl rfl rfl rfl rfl hfr
            · simpa only [cp, hrs, hsd, he, hfd] using h

theorem blockInv_mv (st : VFSState) (src dest : String) (h : BlockInv st) :
    BlockInv (mv st src dest).2 := by
  rcases hrs : resolve_path st src with e | sp
  · simpa only [mv, hrs] using h
  · rcases sp with ⟨sd, sn⟩
    rcases hrd : resolve_path st dest with e | dp
    · simpa only [mv, hrs, hrd] using h
    · rcases dp with ⟨dd, dn⟩
      rcases hsd : st.getFiles sd with _ | nd
      · simpa only [mv, hrs, hrd, hsd] using h
      · rcases nd with data | sentries
        · simpa only [mv, hrs, hrd, hsd] using h
        · rcases he : lookupEntry sentries sn with _ | id
          · simpa only [mv, hrs, hrd, hsd, he] using h
          · rcases hfd : st.getFiles id with _ | nd2
            · simpa only [mv, hrs, hrd, hsd, he, hfd] using h
            · rcases nd2 with data | entries2
              · rcases hdd : st.getFiles dd with _ | nd3
                · simpa only [mv, hrs, hrd, hsd, he, hfd, hdd] using h
                · rcases nd3 with data3 | dentries
                  · simpa only [mv, hrs, hrd, hsd, he, hfd, hdd] using h
                  · by_cases hex : (lookupEntry dentries dn).isSome
                    · simpa only [mv, hrs, hrd, hsd, he, hfd, hdd, if_pos hex] using h
                    · by_cases hsame : sd = dd
                      · simp only [mv, hrs, hrd, hsd, he, hfd, hdd, if_neg hex,
                          if_pos hsame]
                        exact blockInv_ext st _ rfl rfl rfl rfl h
                      · have h2 : BlockInv (cp st src dest).2 := blockInv_cp st src dest h
                        rcases hcp : cp st src dest with ⟨r, st2⟩
                        rw [hcp] at h2
                        rcases r with e | u
                        · simpa only [mv, hrs, hrd, hsd, he, hfd, hdd, if_neg hex,
                            if_neg hsame, hcp] using h2
                        · simp only [mv, hrs, hrd, hsd, he, hfd, hdd, if_neg hex,
                            if_neg hsame, hcp]
                          exact blockInv_ext st2 _ (remDirEntry_same _ _ _).1
                            (remDirEntry_same _ _ _).2.1 (remDirEntry_same _ _ _).2.2.1
                            (remDirEntry_same _ _ _).2.2.2 h2
              · simpa only [mv, hrs, hrd, hsd, he, hfd] using h

theorem blockInv_init (tb bs : Nat) : BlockInv (initVFS tb bs) := by
  refine ⟨?_, ?_, ?_, ?_, ?_, ?_, ?_⟩ <;>
    simp [initVFS, mkInode, List.mem_range, List.nodup_range]

theorem blockInv_step (st : VFSState) (op : Op) (h : BlockInv st) :
    BlockInv (applyOp st op) := by
  cases op with
  | mkdir n => exact blockInv_mkdir st n h
  | touch n => exact blockInv_touch st n h
  | ls =>
    show BlockInv (ls st).2
    rw [ls_snd]
    exact h
  | cd p => exact blockInv_cd st p h
  | cat n =>
    show BlockInv (cat st n).2
    rw [cat_snd]
    exact h
  | write n c => exact blockInv_write st n c h
  | cp s d => exact blockInv_cp st s d h
  | mv s d => exact blockInv_mv st s d h
  | rm n => exact blockInv_rm st n h
  | pwd => exact h
  | chmod n p => exact blockInv_chmod st n p h

theorem reachable_blockInv (tb bs : Nat) (st : VFSState) (h : Reachable tb bs st) :
    BlockInv st := by
  induction h with
  | init => exact blockInv_init tb bs
  | step op hr ih => exact blockInv_step _ op ih

/-- Claim C2: in every state reachable by engine operations from a fresh
filesystem, the free-block pool and the blocks owned by live inodes are
disjoint, and together they are exactly the full block index range
`{0, ..., total_blocks - 1}`; this covers every operation sequence, hence in
particular all sequences of `touch`, `mkdir` and `rm`. -/
theorem claim_C2 (tb bs : Nat) (st : VFSState) (h : Reachable tb bs st) :
    (∀ b ∈ st.free_blocks, ∀ p ∈ st.inodes, b ∉ p.2.blocks)
    ∧ (∀ b, b < st.total_blocks ↔
        (b ∈ st.free_blocks ∨ ∃ p ∈ st.inodes, b ∈ p.2.blocks)) := by
  have hi := reachable_blockInv tb bs st h
  exact ⟨fun b hb p hp hbp => hi.blocks_free p hp b hbp hb, hi.cover⟩

/-- Witness for `claim_C2`: the state after `touch a; write a "xxxxx"` on a
10-blocks-of-4-bytes filesystem is reachable and satisfies the invariant. -/
theorem claim_C2_witness :
    (∀ b ∈ (applyOp (applyOp (initVFS 10 4) (Op.touch "a")) (Op.write "a" "xxxxx")).free_blocks,
      ∀ p ∈ (applyOp (applyOp (initVFS 10 4) (Op.touch "a")) (Op.write "a" "xxxxx")).inodes,
        b ∉ p.2.blocks)
    ∧ (∀ b, b < (applyOp (applyOp (initVFS 10 4) (Op.touch "a")) (Op.write "a" "xxxxx")).total_blocks ↔
        (b ∈ (applyOp (applyOp (initVFS 10 4) (Op.touch "a")) (Op.write "a" "xxxxx")).free_blocks
          ∨ ∃ p ∈ (applyOp (applyOp (initVFS 10 4) (Op.touch "a")) (Op.write "a" "xxxxx")).inodes,
              b ∈ p.2.blocks)) :=
  claim_C2 10 4 _
    (Reachable.step (Op.write "a" "xxxxx") (Reachable.step (Op.touch "a") Reachable.init))

/-! ### Node-store invariant toolkit -/

theorem filesInv_mono (st st' : VFSState)
    (hf : st'.files = st.files) (hn : st.next_inode_id ≤ st'.next_inode_id)
    (h : FilesInv st) : FilesInv st' := by
  constructor
  · intro p hp
    rw [hf] at hp
    exact Nat.lt_of_lt_of_le (h.fkeys_lt p hp) hn
  · intro p hp entries hpe q hq
    rw [hf] at hp
    exact Nat.lt_of_lt_of_le (h.entries_lt p hp entries hpe q hq) hn

theorem FilesInv.mono {st : VFSState} (h : FilesInv st) (st' : VFSState)
    (hf : st'.files = st.files) (hn : st.next_inode_id ≤ st'.next_inode_id) :
    FilesInv st' :=
  filesInv_mono st st' hf hn h

theorem filesInv_insert (st st' : VFSState) (k : Nat) (nd : NodeData)
    (hfile : st'.files = dinsert st.files k nd)
    (hn : st.next_inode_id ≤ st'.next_inode_id)
    (hk : k < st'.next_inode_id)
    (hnd : ∀ entries, nd = NodeData.dir entries → ∀ q ∈ entries, q.2 < st'.next_inode_id)
    (h : FilesInv st) : FilesInv st' := by
  constructor
  · intro p hp
    rw [hfile] at hp
    rcases mem_dinsert hp with h2 | h2
    · rw [h2]
      exact hk
    · exact Nat.lt_of_lt_of_le (h.fkeys_lt p h2) hn
  · intro p hp entries hpe q hq
    rw [hfile] at hp
    rcases mem_dinsert hp with h2 | h2
    · refine hnd entries ?_ q hq
      rw [← hpe, h2]
    · exact Nat.lt_of_lt_of_le (h.entries_lt p h2 entries hpe q hq) hn

theorem filesInv_erase (st st' : VFSState) (k : Nat)
    (hfile : st'.files = derase st.files k)
    (hn : st.next_inode_id ≤ st'.next_inode_id)
    (h : FilesInv st) : FilesInv st' := by
  constructor
  · intro p hp
    rw [hfile] at hp
    exact Nat.lt_of_lt_of_le (h.fkeys_lt p ((mem_derase_iff _ _ _).mp hp).1) hn
  · intro p hp entries hpe q hq
    rw [hfile] at hp
    exact Nat.lt_of_lt_of_le
      (h.entries_lt p ((mem_derase_iff _ _ _).mp hp).1 entries hpe q hq) hn

theorem filesInv_addDirEntry (st : VFSState) (d : Nat) (n : String) (c : Nat)
    (hc : c < st.next_inode_id) (h : FilesInv st) : FilesInv (addDirEntry st d n c) := by
  rcases hd : st.getFiles d with _ | nd
  · simpa only [addDirEntry, hd] using h
  · rcases nd with data | entries
    · simpa only [addDirEntry, hd] using h
    · simp only [addDirEntry, hd]
      refine filesInv_insert st _ d (NodeData.dir (dinsert entries n c)) rfl (le_refl _)
        (h.fkeys_lt _ (mem_of_dget hd)) ?_ h
      intro e he q hq
      injection he with he
      rw [← he] at hq
      rcases mem_dinsert hq with h2 | h2
      · rw [h2]
        exact hc
      · exact h.entries_lt _ (mem_of_dget hd) entries rfl q h2

theorem filesInv_remDirEntry (st : VFSState) (d : Nat) (n : String)
    (h : FilesInv st) : FilesInv (remDirEntry st d n) := by
  rcases hd : st.getFiles d with _ | nd
  · simpa only [remDirEntry, hd] using h
  · rcases nd with data | entries
    · simpa only [remDirEntry, hd] using h
    · simp only [remDirEntry, hd]
      refine filesInv_insert st _ d (NodeData.dir (derase entries n)) rfl (le_refl _)
        (h.fkeys_lt _ (mem_of_dget hd)) ?_ h
      intro e he q hq
      injection he with he
      rw [← he] at hq
      exact h.entries_lt _ (mem_of_dget hd) entries rfl q ((mem_derase_iff _ _ _).mp hq).1

theorem filesInv_mkdir (st : VFSState) (n : String) (h : FilesInv st) :
    FilesInv (mkdir st n).2 := by
  rcases hcur : st.getFiles st.current_dir with _ | nd
  · simpa only [mkdir, hcur] using h
  · rcases nd with data | entries
    · simpa only [mkdir, hcur] using h
    · by_cases he : (lookupEntry entries n).isSome
      · simpa only [mkdir, hcur, if_pos he] using h
      · simp only [mkdir, hcur, if_neg he, allocate_inode, mkInode]
        refine filesInv_addDirEntry _ _ _ _ (Nat.lt_succ_self _) ?_
        refine filesInv_insert st _ st.next_inode_id (NodeData.dir []) rfl
          (Nat.le_succ _) (Nat.lt_succ_self _) ?_ h
        intro e he2 q hq
        injection he2 with he2
        rw [← he2] at hq
        simp at hq

theorem filesInv_touch (st : VFSState) (n : String) (h : FilesInv st) :
    FilesInv (touch st n).2 := by
  rcases hcur : st.getFiles st.current_dir with _ | nd
  · simpa only [touch, hcur] using h
  · rcases nd with data | entries
    · simpa only [touch, hcur] using h
    · by_cases he : (lookupEntry entries n).isSome
      · simpa only [touch, hcur, if_pos he] using h
      · simp only [touch, hcur, if_neg he, allocate_inode, mkInode]
        refine filesInv_addDirEntry _ _ _ _ (Nat.lt_succ_self _) ?_
        refine filesInv_insert st _ st.next_inode_id (NodeData.file "") rfl
          (Nat.le_succ _) (Nat.lt_succ_self _) ?_ h
        intro e he2 q hq
        exact absurd he2 (by simp)

theorem filesInv_cd (st : VFSState) (p : String) (h : FilesInv st) :
    FilesInv (cd st p).2 := by
  by_cases hp : p = ".."
  · subst hp
    have hs : (cd st "..").2
        = if st.current_dir ≠ 0 then { st with current_dir := 0 } else st := by
      simp [cd]
    rw [hs]
    by_cases h0 : st.current_dir ≠ 0
    · rw [if_pos h0]
      exact filesInv_mono st _ rfl (le_refl _) h
    · rw [if_neg h0]
      exact h
  · rcases hcur : st.getFiles st.current_dir with _ | nd
    · simpa only [cd, if_neg hp, hcur] using h
    · rcases nd with data | entries
      · simpa only [cd, if_neg hp, hcur] using h
      · rcases he : lookupEntry entries p with _ | id
        · simpa only [cd, if_neg hp, hcur, he] using h
        · rcases hio : st.getInode id with _ | ino
          · simpa only [cd, if_neg hp, hcur, he, hio] using h
          · by_cases hdir : ino.is_dir = true
            · simp only [cd, if_neg hp, hcur, he, hio, if_pos hdir]
              exact filesInv_mono st _ rfl (le_refl _) h
            · simpa only [cd, if_neg hp, hcur, he, hio, if_neg hdir] using h

theorem filesInv_chmod (st : VFSState) (n s : String) (h : FilesInv st) :
    FilesInv (chmod st n s).2 := by
  rcases hcur : st.getFiles st.current_dir with _ | nd
  · simpa only [chmod, hcur] using h
  · rcases nd with data | entries
    · simpa only [chmod, hcur] using h
    · rcases he : lookupEntry entries n with _ | id
      · simpa only [chmod, hcur, he] using h
      · rcases hv : pyIntBase8 s with _ | v
        · simpa only [chmod, hcur, he, hv] using h
        · rcases hio : st.getInode id with _ | ino
          · simpa only [chmod, hcur, he, hv, hio] using h
          · simp only [chmod, hcur, he, hv, hio]
            exact filesInv_mono st _ rfl (le_refl _) h

theorem filesInv_write (st : VFSState) (n c : String) (h : FilesInv st) :
    FilesInv (write st n c).2 := by
  rcases hcur : st.getFiles st.current_dir with _ | nd
  · simpa only [write, hcur] using h
  · rcases nd with data | entries
    · simpa only [write, hcur] using h
    · rcases he : lookupEntry entries n with _ | id
      · simpa only [write, hcur, he] using h
      · rcases hfd : st.getFiles id with _ | nd2
        · simpa only [write, hcur, he, hfd] using h
        · rcases nd2 with data2 | entries2
          · rcases hio : st.getInode id with _ | ino
            · simpa only [write, hcur, he, hfd, hio] using h
            · simp only [write, hcur, he, hfd, hio]
              have hid : id < st.next_inode_id := h.fkeys_lt _ (mem_of_dget hfd)
              have hins : FilesInv { st with
                  files := dinsert st.files id (NodeData.file c),
                  inodes := dinsert st.inodes id
                    { ino with size := utf8Len c, modified := st.clock },
                  clock := st.clock + 1 } := by
                refine filesInv_insert st _ id (NodeData.file c) rfl (le_refl _) hid ?_ h
                intro e he2 q hq
                exact absurd he2 (by simp)
              by_cases hneed :
                  ino.blocks.length < (utf8Len c + st.block_size - 1) / st.block_size
              · rw [if_pos hneed]
                simp only [allocate_blocks]
                by_cases hfree : st.free_blocks.length <
                    (utf8Len c - ino.blocks.length * st.block_size + st.block_size - 1)
                      / st.block_size
                · rw [if_pos hfree]
                  exact hins
                · rw [if_neg hfree]
                  exact hins.mono _ rfl (le_refl _)
              · rw [if_neg hneed]
                exact hins
          · simpa only [write, hcur, he, hfd] using h

theorem filesInv_rm (st : VFSState) (n : String) (h : FilesInv st) :
    FilesInv (rm st n).2 := by
  rcases hcur : st.getFiles st.current_dir with _ | nd
  · simpa only [rm, hcur] using h
  · rcases nd with data | entries
    · simpa only [rm, hcur] using h
    · rcases he : lookupEntry entries n with _ | id
      · simpa only [rm, hcur, he] using h
      · rcases hio : st.getInode id with _ | ino
        · simpa only [rm, hcur, he, hio] using h
        · simp only [rm, hcur, he, hio]
          refine filesInv_remDirEntry _ _ _ ?_
          exact filesInv_erase st _ id rfl (le_refl _) h

theorem filesInv_cp (st : VFSState) (src dest : String) (h : FilesInv st) :
    FilesInv (cp st src dest).2 := by
  rcases hrs : resolve_path st src with e | sp
  · simpa only [cp, hrs] using h
  · rcases sp with ⟨sd, sn⟩
    rcases hsd : st.getFiles sd with _ | nd
    · simpa only [cp, hrs, hsd] using h
    · rcases nd with data | sentries
      · simpa only [cp, hrs, hsd] using h
      · rcases he : lookupEntry sentries sn with _ | id
        · simpa only [cp, hrs, hsd, he] using h
        · rcases hfd : st.getFiles id with _ | nd2
          · simpa only [cp, hrs, hsd, he, hfd] using h
          · rcases nd2 with data | entries2
            · rcases hrd : resolve_path st dest with e | dp
              · simpa only [cp, hrs, hsd, he, hfd, hrd] using h
              · rcases dp with ⟨dd, dn⟩
                rcases hdd : st.getFiles dd with _ | nd3
                · simpa only [cp, hrs, hsd, he, hfd, hrd, hdd] using h
                · rcases nd3 with data3 | dentries
                  · simpa only [cp, hrs, hsd, he, hfd, hrd, hdd] using h
                  · by_cases hex : (lookupEntry dentries dn).isSome
                    · simpa only [cp, hrs, hsd, he, hfd, hrd, hdd, if_pos hex] using h
                    · rcases hsi : st.getInode id with _ | sino
                      · simpa only [cp, hrs, hsd, he, hfd, hrd, hdd, if_neg hex, hsi]
                          using h
                      · simp only [cp, hrs, hsd, he, hfd, hrd, hdd, if_neg hex, hsi]
                        simp only [allocate_blocks, allocate_inode, mkInode]
                        have hmono : FilesInv { st with
                            next_inode_id := st.next_inode_id + 1,
                            inodes := dinsert st.inodes st.next_inode_id
                              (mkInode st.next_inode_id false sino.permissions st.clock),
                            clock := st.clock + 2 } :=
                          filesInv_mono st _ rfl (Nat.le_succ _) h
                        by_cases hfree : st.free_blocks.length <
                            (utf8Len data + st.block_size - 1) / st.block_size
                        · rw [if_pos hfree]
                          exact hmono.mono _ rfl (le_refl _)
                        · rw [if_neg hfree]
                          refine filesInv_addDirEntry _ _ _ _ (Nat.lt_succ_self _) ?_
                          refine filesInv_insert _ _ st.next_inode_id
                            (NodeData.file data) rfl (le_refl _) (Nat.lt_succ_self _)
                            ?_ (hmono.mono _ rfl (le_refl _))
                          intro e he2 q hq
                          exact absurd he2 (by simp)
            · simpa only [cp, hrs, hsd, he, hfd] using h

theorem filesInv_mv (st : VFSState) (src dest : String) (h : FilesInv st) :
    FilesInv (mv st src dest).2 := by
  rcases hrs : resolve_path st src with e | sp
  · simpa only [mv, hrs] using h
  · rcases sp with ⟨sd, sn⟩
    rcases hrd : resolve_path st dest with e | dp
    · simpa only [mv, hrs, hrd] using h
    · rcases dp with ⟨dd, dn⟩
      rcases hsd : st.getFiles sd with _ | nd
      · simpa only [mv, hrs, hrd, hsd] using h
      · rcases nd with data | sentries
        · simpa only [mv, hrs, hrd, hsd] using h
        · rcases he : lookupEntry sentries sn with _ | id
          · simpa only [mv, hrs, hrd, hsd, he] using h
          · rcases hfd : st.getFiles id with _ | nd2
            · simpa only [mv, hrs, hrd, hsd, he, hfd] using h
            · rcases nd2 with data | entries2
              · rcases hdd : st.getFiles dd with _ | nd3
                · simpa only [mv, hrs, hrd, hsd, he, hfd, hdd] using h
                · rcases nd3 with data3 | dentries
                  · simpa only [mv, hrs, hrd, hsd, he, hfd, hdd] using h
                  · by_cases hex : (lookupEntry dentries dn).isSome
                    · simpa only [mv, hrs, hrd, hsd, he, hfd, hdd, if_pos hex] using h
                    · by_cases hsame : sd = dd
                      · simp only [mv, hrs, hrd, hsd, he, hfd, hdd, if_neg hex,
                          if_pos hsame]
                        refine filesInv_insert st _ sd _ rfl (le_refl _)
                          (h.fkeys_lt _ (mem_of_dget hsd)) ?_ h
                        intro e he2 q hq
                        injection he2 with he2
                        rw [← he2] at hq
                        rcases mem_dinsert ((mem_derase_iff _ _ _).mp hq).1 with h2 | h2
                        · have hlt : id < st.next_inode_id :=
                            h.entries_lt _ (mem_of_dget hsd) sentries rfl (sn, id)
                              (mem_of_dget (show dget sentries sn = some id from he))
                          rw [h2]
                          exact hlt
                        · exact h.entries_lt _ (mem_of_dget hsd) sentries rfl q h2
                      · have h2 : FilesInv (cp st src dest).2 := filesInv_cp st src dest h
                        rcases hcp : cp st src dest with ⟨r, st2⟩
                        rw [hcp] at h2
                        rcases r with e | u
                        · simpa only [mv, hrs, hrd, hsd, he, hfd, hdd, if_neg hex,
                            if_neg hsame, hcp] using h2
                        · simp only [mv, hrs, hrd, hsd, he, hfd, hdd, if_neg hex,
                            if_neg hsame, hcp]
                          exact filesInv_remDirEntry _ _ _ h2
              · simpa only [mv, hrs, hrd, hsd, he, hfd] using h

theorem filesInv_init (tb bs : Nat) : FilesInv (initVFS tb bs) := by
  constructor
  · intro p hp
    simp [initVFS] at hp
    simp [hp, initVFS]
  · intro p hp entries hpe q hq
    simp [initVFS] at hp
    rw [hp] at hpe
    simp at hpe
    rw [hpe] at hq
    simp at hq

theorem filesInv_step (st : VFSState) (op : Op) (h : FilesInv st) :
    FilesInv (applyOp st op) := by
  cases op with
  | mkdir n => exact filesInv_mkdir st n h
  | touch n => exact filesInv_touch st n h
  | ls =>
    show FilesInv (ls st).2
    rw [ls_snd]
    exact h
  | cd p => exact filesInv_cd st p h
  | cat n =>
    show FilesInv (cat st n).2
    rw [cat_snd]
    exact h
  | write n c => exact filesInv_write st n c h
  | cp s d => exact filesInv_cp st s d h
  | mv s d => exact filesInv_mv st s d h
  | rm n => exact filesInv_rm st n h
  | pwd => exact h
  | chmod n p => exact filesInv_chmod st n p h

theorem reachable_filesInv (tb bs : Nat) (st : VFSState) (h : Reachable tb bs st) :
    FilesInv st := by
  induction h with
  | init => exact filesInv_init tb bs
  | step op hr ih => exact filesInv_step _ op ih

theorem getFiles_remDirEntry (st : VFSState) (d : Nat) (n : String)
    (entries : List (String × Nat)) (hd : st.getFiles d = some (NodeData.dir entries)) :
    (remDirEntry st d n).getFiles d = some (NodeData.dir (derase entries n)) := by
  unfold remDirEntry
  rw [hd]
  show dget (dinsert st.files d (NodeData.dir (derase entries n))) d = _
  exact dget_dinsert_self _ _ _

theorem getFiles_remDirEntry_ne (st : VFSState) (d : Nat) (n : String) (k : Nat)
    (hk : k ≠ d) : (remDirEntry st d n).getFiles k = st.getFiles k := by
  unfold remDirEntry
  rcases hd : st.getFiles d with _ | nd
  · rfl
  · rcases nd with data | e
    · rfl
    · show dget (dinsert st.files d (NodeData.dir (derase e n))) k = _
      exact dget_dinsert_ne _ _ _ _ hk

theorem getFiles_addDirEntry (st : VFSState) (d : Nat) (n : String) (c : Nat)
    (entries : List (String × Nat)) (hd : st.getFiles d = some (NodeData.dir entries)) :
    (addDirEntry st d n c).getFiles d = some (NodeData.dir (dinsert entries n c)) := by
  unfold addDirEntry
  rw [hd]
  show dget (dinsert st.files d (NodeData.dir (dinsert entries n c))) d = _
  exact dget_dinsert_self _ _ _

theorem getFiles_addDirEntry_ne (st : VFSState) (d : Nat) (n : String) (c : Nat) (k : Nat)
    (hk : k ≠ d) : (addDirEntry st d n c).getFiles k = st.getFiles k := by
  unfold addDirEntry
  rcases hd : st.getFiles d with _ | nd
  · rfl
  · rcases nd with data | e
    · rfl
    · show dget (dinsert st.files d (NodeData.dir (dinsert e n c))) k = _
      exact dget_dinsert_ne _ _ _ _ hk

theorem getInode_addDirEntry (st : VFSState) (d : Nat) (n : String) (c : Nat) (k : Nat) :
    (addDirEntry st d n c).getInode k = st.getInode k := by
  unfold addDirEntry
  rcases hd : st.getFiles d with _ | nd
  · rfl
  · rcases nd with data | e <;> rfl

/-- Characterization of a successful `cp`: a fresh inode (id = the old
counter) carrying a copy of the source bytes, permissions duplicated, blocks
freshly taken from the free pool, the destination entry added, and no other
node-store key touched. -/
theorem cp_ok (st st' : VFSState) (src dest : String)
    (sd dd : Nat) (sn dn : String) (sentries dentries : List (String × Nat))
    (sid : Nat) (data : String) (sino : Inode)
    (h1 : resolve_path st src = Except.ok (sd, sn))
    (h3 : st.getFiles sd = some (NodeData.dir sentries))
    (h4 : dget sentries sn = some sid)
    (hfd : st.getFiles sid = some (NodeData.file data))
    (h2 : resolve_path st dest = Except.ok (dd, dn))
    (hdd : st.getFiles dd = some (NodeData.dir dentries))
    (hsi : st.getInode sid = some sino)
    (hddlt : dd < st.next_inode_id)
    (hcp : cp st src dest = (Except.ok (), st')) :
    ∃ dino : Inode,
      st'.getInode st.next_inode_id = some dino
      ∧ dino.permissions = sino.permissions
      ∧ dino.blocks
          = st.free_blocks.take ((utf8Len data + st.block_size - 1) / st.block_size)
      ∧ st'.getFiles st.next_inode_id = some (NodeData.file data)
      ∧ st'.getFiles dd = some (NodeData.dir (dinsert dentries dn st.next_inode_id))
      ∧ (∀ k, k ≠ st.next_inode_id → k ≠ dd → st'.getFiles k = st.getFiles k)
      ∧ st'.next_inode_id = st.next_inode_id + 1 := by
  have hne : dd ≠ st.next_inode_id := Nat.ne_of_lt hddlt
  simp only [cp, h1, h3, lookupEntry_eq, h4, hfd, h2, hdd, hsi] at hcp
  by_cases hex : (dget dentries dn).isSome
  · rw [if_pos hex] at hcp
    simp at hcp
  · rw [if_neg hex] at hcp
    simp only [allocate_blocks, allocate_inode, mkInode] at hcp
    by_cases hfree : st.free_blocks.length <
        (utf8Len data + st.block_size - 1) / st.block_size
    · rw [if_pos hfree] at hcp
      simp at hcp
    · rw [if_neg hfree] at hcp
      simp only [Prod.mk.injEq, true_and] at hcp
      subst hcp
      have hnidd : st.next_inode_id ≠ dd := fun h => hne h.symm
      let dino : Inode :=
        { id := st.next_inode_id, is_dir := false, permissions := sino.permissions,
          size := utf8Len data,
          blocks := List.take ((utf8Len data + st.block_size - 1) / st.block_size)
            st.free_blocks,
          created := st.clock, modified := st.clock + 1, owner := "user" }
      refine ⟨dino, ?_, rfl, rfl, ?_, ?_, ?_, ?_⟩
      · rw [getInode_addDirEntry]
        exact dget_dinsert_self _ _ _
      · rw [getFiles_addDirEntry_ne _ dd dn _ _ hnidd]
        exact dget_dinsert_self _ _ _
      · refine getFiles_addDirEntry _ dd dn _ dentries ?_
        show dget (dinsert st.files st.next_inode_id (NodeData.file data)) dd = _
        rw [dget_dinsert_ne _ _ _ _ hne]
        exact hdd
      · intro k hk1 hk2
        rw [getFiles_addDirEntry_ne _ dd dn _ _ hk2]
        show dget (dinsert st.files st.next_inode_id (NodeData.file data)) k = _
        rw [dget_dinsert_ne _ _ _ _ hk1]
        rfl
      · exact (addDirEntry_same _ dd dn _).2.2.1

/-- Claim C8: every successful `cp` of a file gives the destination a block
list disjoint from the source's (blocks are freshly allocated from the free
pool, which the invariant keeps disjoint from all owned blocks), an identical
byte buffer, and identical permission bits. -/
theorem claim_C8 (tb bs : Nat) (st st' : VFSState) (src dest : String)
    (sd dd : Nat) (sn dn : String) (sentries dentries : List (String × Nat))
    (sid : Nat) (data : String) (sino : Inode)
    (hr : Reachable tb bs st)
    (h1 : resolve_path st src = Except.ok (sd, sn))
    (h3 : st.getFiles sd = some (NodeData.dir sentries))
    (h4 : dget sentries sn = some sid)
    (hfd : st.getFiles sid = some (NodeData.file data))
    (h2 : resolve_path st dest = Except.ok (dd, dn))
    (hdd : st.getFiles dd = some (NodeData.dir dentries))
    (hsi : st.getInode sid = some sino)
    (hcp : cp st src dest = (Except.ok (), st')) :
    ∃ dino : Inode,
      st'.getInode st.next_inode_id = some dino
      ∧ (∀ b ∈ dino.blocks, b ∉ sino.blocks)
      ∧ st'.getFiles st.next_inode_id = some (NodeData.file data)
      ∧ dino.permissions = sino.permissions := by
  have hfi := reachable_filesInv tb bs st hr
  have hbi := reachable_blockInv tb bs st hr
  have hddlt : dd < st.next_inode_id := hfi.fkeys_lt _ (mem_of_dget hdd)
  obtain ⟨dino, hio, hperm, hblocks, hfile, -, -, -⟩ :=
    cp_ok st st' src dest sd dd sn dn sentries dentries sid data sino
      h1 h3 h4 hfd h2 hdd hsi hddlt hcp
  refine ⟨dino, hio, ?_, hfile, hperm⟩
  intro b hb hbs
  rw [hblocks] at hb
  exact hbi.blocks_free (sid, sino) (mem_of_dget hsi) b hbs (List.take_subset _ _ hb)

/-- Witness for `claim_C8`: after `touch a; write a "xxxxx"` (10 blocks of 4
bytes, file owns blocks 0 and 1), `cp a b` gives inode 2 fresh blocks,
the same buffer and the same permissions. -/
theorem claim_C8_witness :
    ∃ dino : Inode,
      ((cp (applyOp (applyOp (initVFS 10 4) (Op.touch "a")) (Op.write "a" "xxxxx")) "a" "b").2).getInode 2
          = some dino
      ∧ (∀ b ∈ dino.blocks, b ∉ Inode.blocks
          { id := 1, is_dir := false, permissions := 493, size := 5, blocks := [0, 1],
            created := 2, modified := 4, owner := "user" })
      ∧ ((cp (applyOp (applyOp (initVFS 10 4) (Op.touch "a")) (Op.write "a" "xxxxx")) "a" "b").2).getFiles 2
          = some (NodeData.file "xxxxx")
      ∧ dino.permissions = Inode.permissions
          { id := 1, is_dir := false, permissions := 493, size := 5, blocks := [0, 1],
            created := 2, modified := 4, owner := "user" } :=
  claim_C8 10 4 (applyOp (applyOp (initVFS 10 4) (Op.touch "a")) (Op.write "a" "xxxxx"))
    (cp (applyOp (applyOp (initVFS 10 4) (Op.touch "a")) (Op.write "a" "xxxxx")) "a" "b").2
    "a" "b" 0 0 "a" "b" [("a", 1)] [("a", 1)] 1 "xxxxx"
    { id := 1, is_dir := false, permissions := 493, size := 5, blocks := [0, 1],
      created := 2, modified := 4, owner := "user" }
    (Reachable.step (Op.write "a" "xxxxx") (Reachable.step (Op.touch "a") Reachable.init))
    (by decide) (by decide) (by decide) (by decide) (by decide) (by decide) (by decide)
    (by decide)

/-- Claim C6: a successful `mv` whose source and destination resolve to the
same parent directory only rekeys the directory entry — the inode table, the
free pool and the id counter are untouched, every other node-store key is
unchanged, and the destination name maps to the same inode id; a successful
`mv` across different parent directories performs a full `cp` and then
removes the source entry, so the destination entry carries the fresh id
`next_inode_id` (different from the source's id) with a copy of the bytes. -/
theorem claim_C6 (tb bs : Nat) (st st' : VFSState) (src dest : String)
    (sd dd : Nat) (sn dn : String) (sentries : List (String × Nat)) (sid : Nat)
    (hr : Reachable tb bs st)
    (h1 : resolve_path st src = Except.ok (sd, sn))
    (h2 : resolve_path st dest = Except.ok (dd, dn))
    (h3 : st.getFiles sd = some (NodeData.dir sentries))
    (h4 : dget sentries sn = some sid)
    (hmv : mv st src dest = (Except.ok (), st')) :
    (sd = dd →
      st'.inodes = st.inodes
      ∧ st'.free_blocks = st.free_blocks
      ∧ st'.next_inode_id = st.next_inode_id
      ∧ (∀ k, k ≠ sd → st'.getFiles k = st.getFiles k)
      ∧ ∃ entries', st'.getFiles sd = some (NodeData.dir entries')
          ∧ dget entries' dn = some sid
          ∧ dget entries' sn = none)
    ∧ (sd ≠ dd →
      sid ≠ st.next_inode_id
      ∧ (∃ dentries', st'.getFiles dd = some (NodeData.dir dentries')
          ∧ dget dentries' dn = some st.next_inode_id)
      ∧ (∃ sentries', st'.getFiles sd = some (NodeData.dir sentries')
          ∧ dget sentries' sn = none)
      ∧ (∀ data, st.getFiles sid = some (NodeData.file data) →
          st'.getFiles st.next_inode_id = some (NodeData.file data))) := by
  have hfi := reachable_filesInv tb bs st hr
  have hsdlt : sd < st.next_inode_id := hfi.fkeys_lt _ (mem_of_dget h3)
  have hsidlt : sid < st.next_inode_id :=
    hfi.entries_lt _ (mem_of_dget h3) sentries rfl (sn, sid) (mem_of_dget h4)
  simp only [mv, h1, h2, h3, lookupEntry_eq, h4] at hmv
  rcases hfd : st.getFiles sid with _ | nd2
  · rw [hfd] at hmv
    simp at hmv
  · rcases nd2 with data | entries2
    · rw [hfd] at hmv
      rcases hdd2 : st.getFiles dd with _ | nd3
      · rw [hdd2] at hmv
        simp at hmv
      · rcases nd3 with data3 | dentries
        · rw [hdd2] at hmv
          simp at hmv
        · rw [hdd2] at hmv
          dsimp only [] at hmv
          by_cases hex : (dget dentries dn).isSome
          · rw [if_pos hex] at hmv
            simp at hmv
          · rw [if_neg hex] at hmv
            by_cases hsame : sd = dd
            · rw [if_pos hsame] at hmv
              simp only [Prod.mk.injEq, true_and] at hmv
              subst hmv
              have hsent : dentries = sentries := by
                rw [← hsame, h3] at hdd2
                injection hdd2 with h5
                injection h5 with h6
                exact h6.symm
              have hdnsn : dn ≠ sn := by
                intro h5
                rw [hsent, h5, h4] at hex
                simp at hex
              constructor
              · intro _
                refine ⟨rfl, rfl, rfl, ?_, ?_⟩
                · intro k hk
                  show dget (dinsert st.files sd _) k = _
                  rw [dget_dinsert_ne _ _ _ _ hk]
                  rfl
                · refine ⟨derase (dinsert sentries dn sid) sn, ?_, ?_, ?_⟩
                  · show dget (dinsert st.files sd _) sd = _
                    rw [dget_dinsert_self]
                  · rw [dget_derase_ne _ _ _ hdnsn, dget_dinsert_self]
                  · exact dget_derase_self _ _
              · intro hc
                exact absurd hsame hc
            · rw [if_neg hsame] at hmv
              rcases hcp2 : cp st src dest with ⟨r, st2⟩
              rw [hcp2] at hmv
              rcases r with e | u
              · simp at hmv
              · simp only [Prod.mk.injEq, true_and] at hmv
                subst hmv
                rcases hsi : st.getInode sid with _ | sino
                · simp only [cp, h1, h3, lookupEntry_eq, h4, hfd, h2, hdd2, hsi] at hcp2
                  rw [if_neg hex] at hcp2
                  simp at hcp2
                · have hddlt : dd < st.next_inode_id := hfi.fkeys_lt _ (mem_of_dget hdd2)
                  obtain ⟨dino, -, -, -, hfnid, hfdd, hother, -⟩ :=
                    cp_ok st st2 src dest sd dd sn dn sentries dentries sid data sino
                      h1 h3 h4 hfd h2 hdd2 hsi hddlt hcp2
                  have hddsd : dd ≠ sd := fun h5 => hsame h5.symm
                  have hnidsd : st.next_inode_id ≠ sd :=
                    fun h5 => absurd h5.symm (Nat.ne_of_lt hsdlt)
                  constructor
                  · intro hc
                    exact absurd hc hsame
                  · intro _
                    refine ⟨Nat.ne_of_lt hsidlt, ?_, ?_, ?_⟩
                    · refine ⟨dinsert dentries dn st.next_inode_id, ?_, dget_dinsert_self _ _ _⟩
                      rw [getFiles_remDirEntry_ne _ sd sn dd hddsd]
                      exact hfdd
                    · refine ⟨derase sentries sn, ?_, dget_derase_self _ _⟩
                      refine getFiles_remDirEntry st2 sd sn sentries ?_
                      rw [hother sd (Nat.ne_of_lt hsdlt) hsame]
                      exact h3
                    · intro data2 hdata2
                      injection hdata2 with h5
                      injection h5 with h6
                      rw [← h6, getFiles_remDirEntry_ne _ sd sn st.next_inode_id hnidsd]
                      exact hfnid
    · rw [hfd] at hmv
      simp at hmv

/-- Witness for `claim_C6`: after `touch a; write a "xyz"; mkdir d`, the
cross-directory `mv a d/b` stores the file under the fresh inode id 3
(different from the source id 1), removes the source entry, and the copy
carries the same bytes. -/
theorem claim_C6_witness :
    (1 : Nat) ≠ 3
    ∧ (∃ dentries',
        ((mv (applyOp (applyOp (applyOp (initVFS 10 4) (Op.touch "a")) (Op.write "a" "xyz")) (Op.mkdir "d")) "a" "d/b").2).getFiles 2
            = some (NodeData.dir dentries')
        ∧ dget dentries' "b" = some 3)
    ∧ (∃ sentries',
        ((mv (applyOp (applyOp (applyOp (initVFS 10 4) (Op.touch "a")) (Op.write "a" "xyz")) (Op.mkdir "d")) "a" "d/b").2).getFiles 0
            = some (NodeData.dir sentries')
        ∧ dget sentries' "a" = none)
    ∧ (∀ data,
        (applyOp (applyOp (applyOp (initVFS 10 4) (Op.touch "a")) (Op.write "a" "xyz")) (Op.mkdir "d")).getFiles 1
            = some (NodeData.file data) →
        ((mv (applyOp (applyOp (applyOp (initVFS 10 4) (Op.touch "a")) (Op.write "a" "xyz")) (Op.mkdir "d")) "a" "d/b").2).getFiles 3
            = some (NodeData.file data)) :=
  (claim_C6 10 4
    (applyOp (applyOp (applyOp (initVFS 10 4) (Op.touch "a")) (Op.write "a" "xyz")) (Op.mkdir "d"))
    (mv (applyOp (applyOp (applyOp (initVFS 10 4) (Op.touch "a")) (Op.write "a" "xyz")) (Op.mkdir "d")) "a" "d/b").2
    "a" "d/b" 0 2 "a" "b" [("a", 1), ("d", 2)] 1
    (Reachable.step (Op.mkdir "d") (Reachable.step (Op.write "a" "xyz")
      (Reachable.step (Op.touch "a") Reachable.init)))
    (by decide) (by decide) (by decide) (by decide) (by decide)).2 (by decide)

end VFS
